import Mathlib

/-!
Shallow embedding of the fuzzy album-matching core of `build_playlist.py`:
text normalization, year extraction, entry de-duplication, and the
`best_match` engine (including its scoring functions from the `rapidfuzz`
library, modelled by their Indel-based definitions).

Python strings are modelled as `List Char`; fuzzy scores (Python floats in
0..100 arising as exact small rationals) are modelled as `ℚ`.
-/

namespace BuildPlaylist

/-- Python `str.isspace` / regex `\s` on the characters relevant here
(ASCII whitespace and the ASCII separator control characters). -/
def pyIsSpace (c : Char) : Bool :=
  c = ' ' || c = '\t' || c = '\n' || c = '\x0b' || c = '\x0c' || c = '\r' ||
  c = '\x1c' || c = '\x1d' || c = '\x1e' || c = '\x1f'

/-- Python `str.strip()`: drop leading and trailing whitespace. -/
def pyStrip (s : List Char) : List Char :=
  ((s.dropWhile pyIsSpace).reverse.dropWhile pyIsSpace).reverse

/-- ASCII lower-casing of one character (Python `str.lower` restricted to
the ASCII range; non-ASCII characters are left unchanged in this model). -/
def pyLowerChar (c : Char) : Char :=
  if 'A' ≤ c ∧ c ≤ 'Z' then Char.ofNat (c.toNat + 32) else c

/-- Python `str.lower()`. -/
def pyLower (s : List Char) : List Char := s.map pyLowerChar

/-- `unidecode` on one character: ASCII characters map to themselves; a small
table covers common Latin diacritics; other characters transliterate to the
empty string in this model (the full `unidecode` table is immaterial here:
general theorems about normalization carry an all-ASCII hypothesis). -/
def unidecodeChar (c : Char) : List Char :=
  if c.toNat < 128 then [c]
  else if c ∈ ['á', 'à', 'â', 'ã', 'ä', 'å'] then ['a']
  else if c ∈ ['é', 'è', 'ê', 'ë'] then ['e']
  else if c ∈ ['í', 'ì', 'î', 'ï'] then ['i']
  else if c ∈ ['ó', 'ò', 'ô', 'õ', 'ö'] then ['o']
  else if c ∈ ['ú', 'ù', 'û', 'ü'] then ['u']
  else if c = 'ñ' then ['n']
  else if c = 'ç' then ['c']
  else []

/-- `unidecode(s)`. -/
def unidecodeStr (s : List Char) : List Char := s.flatMap unidecodeChar

/-- Python `s.replace("&", " and ")`. -/
def replaceAmp (s : List Char) : List Char :=
  s.flatMap fun c => if c = '&' then (" and ".data) else [c]

/-- Python `s.replace("+", " ")`. -/
def replacePlus (s : List Char) : List Char :=
  s.flatMap fun c => if c = '+' then [' '] else [c]

/-- Python `s.replace("/", " and ")`. -/
def replaceSlash (s : List Char) : List Char :=
  s.flatMap fun c => if c = '/' then (" and ".data) else [c]

/-- Python `s.replace(".", "")`. -/
def removeDots (s : List Char) : List Char := s.filter (· ≠ '.')

/-- The leading-article alternatives of the regex
`^(?:the|a|an|le|la|les|el|los|las|der|die|das)\s+`, in source order. -/
def articleWords : List (List Char) :=
  ["the".data, "a".data, "an".data, "le".data, "la".data, "les".data,
   "el".data, "los".data, "las".data, "der".data, "die".data, "das".data]

/-- Does the article word `w` match at the start of `s`, followed by at
least one whitespace character (regex `\s+`)? -/
def articleApplies (w s : List Char) : Bool :=
  w.isPrefixOf s &&
    match s.drop w.length with
    | c :: _ => pyIsSpace c
    | [] => false

/-- `re.sub(r"^(?:the|a|an|le|la|les|el|los|las|der|die|das)\s+", "", s)`:
strip one leading article together with the whitespace run after it. -/
def stripArticle (s : List Char) : List Char :=
  match articleWords.find? (fun w => articleApplies w s) with
  | some w => (s.drop w.length).dropWhile pyIsSpace
  | none => s

/-- `re.sub(r"^l\s*'", "", s)`: strip a leading French elision `l'`. -/
def stripElision (s : List Char) : List Char :=
  match s with
  | c :: rest =>
      if c = 'l' then
        match rest.dropWhile pyIsSpace with
        | '\'' :: r3 => r3
        | _ => s
      else s
  | [] => s

/-- The punctuation class of the regex `[\-_'\"(),!/:;\[\]]+`. -/
def isPunctClass (c : Char) : Bool :=
  c = '-' || c = '_' || c = '\'' || c = '"' || c = '(' || c = ')' ||
  c = ',' || c = '!' || c = '/' || c = ':' || c = ';' || c = '[' || c = ']'

/-- Replace every maximal run of characters satisfying `p` by a single
space (the effect of `re.sub(r"[class]+", " ", s)`); `inRun` records whether
the previous character belonged to a run. -/
def runToSpace (p : Char → Bool) : Bool → List Char → List Char
  | _, [] => []
  | inRun, c :: cs =>
      if p c then
        if inRun then runToSpace p true cs else ' ' :: runToSpace p true cs
      else c :: runToSpace p false cs

/-- `re.sub(r"[\-_'\"(),!/:;\[\]]+", " ", s)`. -/
def punctToSpace (s : List Char) : List Char := runToSpace isPunctClass false s

/-- `re.sub(r"\s+", " ", s)`. -/
def collapseWs (s : List Char) : List Char := runToSpace pyIsSpace false s

/-- `normalize_text` from `build_playlist.py`. -/
def normalize_text (s : List Char) : List Char :=
  let s1 := pyLower (pyStrip s)
  let s2 := unidecodeStr s1
  let s3 := replaceSlash (replacePlus (replaceAmp s2))
  let s4 := removeDots s3
  let s5 := stripElision (stripArticle s4)
  pyStrip (collapseWs (punctToSpace s5))

/-- Helper for `splitWs`: scan with the current (reversed) token as
accumulator, emitting a token at the end of each non-whitespace run. -/
def splitWsAux : List Char → List Char → List (List Char)
  | [], acc => if acc = [] then [] else [acc.reverse]
  | c :: cs, acc =>
      if pyIsSpace c then
        if acc = [] then splitWsAux cs []
        else acc.reverse :: splitWsAux cs []
      else splitWsAux cs (c :: acc)

/-- Python `str.split()` (split on whitespace runs, no empty tokens). -/
def splitWs (s : List Char) : List (List Char) := splitWsAux s []

/-- Codepoint-lexicographic `<` on strings (Python string comparison). -/
def strLt : List Char → List Char → Bool
  | [], [] => false
  | [], _ :: _ => true
  | _ :: _, [] => false
  | a :: as, b :: bs =>
      if a.toNat < b.toNat then true
      else if b.toNat < a.toNat then false
      else strLt as bs

/-- Insert a string into an ascending list (after equal elements). -/
def insertStr (x : List Char) : List (List Char) → List (List Char)
  | [] => [x]
  | y :: ys => if strLt x y then x :: y :: ys else y :: insertStr x ys

/-- Python `sorted` on a list of strings. -/
def sortStrs (l : List (List Char)) : List (List Char) := l.foldr insertStr []

/-- Remove duplicates keeping first occurrences (`seen` accumulates). -/
def dedupStrAux (seen : List (List Char)) : List (List Char) → List (List Char)
  | [] => []
  | x :: xs =>
      if x ∈ seen then dedupStrAux seen xs
      else x :: dedupStrAux (x :: seen) xs

/-- Remove duplicate strings, keeping first occurrences. -/
def dedupStr (l : List (List Char)) : List (List Char) := dedupStrAux [] l

/-- The sorted unique token list of a string (Python
`sorted(set(s.split()))`). -/
def tokSet (s : List Char) : List (List Char) := sortStrs (dedupStr (splitWs s))

/-- `" ".join(l)`. -/
def joinSpace (l : List (List Char)) : List Char := List.intercalate [' '] l

/-- One row update of the longest-common-subsequence table:
`diag` is the previous row's entry one column back, the first list argument
pairs the remaining column characters with the previous row's remaining
entries, `left` is the entry just computed in the new row. -/
def lcsRow (c : Char) : List Char → List Nat → Nat → Nat → List Nat
  | y :: ys, pj :: prest, diag, left =>
      let cur := if y = c then diag + 1 else max left pj
      cur :: lcsRow c ys prest pj cur
  | _, _, _, _ => []

/-- Fold the LCS dynamic program over the rows (one per character of the
second argument); `prev` is the current table row over `ys`-prefixes. -/
def lcsFold (ys : List Char) : List Char → List Nat → List Nat
  | [], prev => prev
  | c :: xs, prev =>
      match prev with
      | [] => []
      | p0 :: prest => lcsFold ys xs (0 :: lcsRow c ys prest p0 0)

/-- Length of a longest common subsequence of two character lists. -/
def lcsLen (xs ys : List Char) : Nat :=
  (lcsFold ys xs (List.replicate (ys.length + 1) 0)).getLastD 0

/-- Indel (insertion/deletion) edit distance: `|a| + |b| - 2·LCS(a,b)`. -/
def indelDist (a b : List Char) : Nat := a.length + b.length - 2 * lcsLen a b

/-- rapidfuzz's `norm_distance<100>(d, t)`: the similarity `100·(1 - d/t)`
(and `100` when `t = 0`), written as the single exact rational
`100·(t-d)/t` so that it evaluates by kernel reduction. -/
def normSim (d t : ℕ) : ℚ :=
  if t = 0 then 100 else mkRat (100 * ((t - d : ℕ) : ℤ)) t

/-- Add a natural number to a rational (kernel-computable form of `q + n`,
used for the year bonuses). -/
def ratAddNat (q : ℚ) (n : ℕ) : ℚ := mkRat (q.num + n * q.den) q.den

/-- `rapidfuzz.fuzz.ratio`: normalized Indel similarity scaled to 0–100
(`100` when both strings are empty). -/
def fuzz_ratio (a b : List Char) : ℚ :=
  normSim (indelDist a b) (a.length + b.length)

/-- `rapidfuzz.fuzz.token_sort_ratio`: `ratio` of the space-joined sorted
token lists. -/
def token_sort_ratio (a b : List Char) : ℚ :=
  fuzz_ratio (joinSpace (sortStrs (splitWs a))) (joinSpace (sortStrs (splitWs b)))

/-- `rapidfuzz.fuzz.token_set_ratio`: decompose the unique-token sets into
intersection and differences; `100` when the sets are non-disjoint and one
contains the other; otherwise the maximum of the Indel similarities of
`sect+diff_ab` vs `sect+diff_ba`, `sect` vs `sect+diff_ab`, and `sect` vs
`sect+diff_ba` (computed in closed form as in rapidfuzz). -/
def token_set_ratio (a b : List Char) : ℚ :=
  let ta := tokSet a
  let tb := tokSet b
  if ta = [] ∨ tb = [] then 0
  else
    let sect := ta.filter (· ∈ tb)
    let dAB := ta.filter (· ∉ tb)
    let dBA := tb.filter (· ∉ ta)
    if sect ≠ [] ∧ (dAB = [] ∨ dBA = []) then 100
    else
      let abJ := joinSpace dAB
      let baJ := joinSpace dBA
      let abLen : ℕ := abJ.length
      let baLen : ℕ := baJ.length
      let sectLen : ℕ := (joinSpace sect).length
      let sectMark : ℕ := if sectLen = 0 then 0 else 1
      let sectAbLen := sectLen + sectMark + abLen
      let sectBaLen := sectLen + sectMark + baLen
      let result : ℚ := normSim (indelDist abJ baJ) (sectAbLen + sectBaLen)
      if sectLen = 0 then result
      else
        let sectAbRatio : ℚ := normSim (sectMark + abLen) (sectLen + sectAbLen)
        let sectBaRatio : ℚ := normSim (sectMark + baLen) (sectLen + sectBaLen)
        max result (max sectAbRatio sectBaRatio)

/-- ASCII digit test (regex `\d`, Python `str.isdigit` per character). -/
def isDigitChar (c : Char) : Bool := '0' ≤ c && c ≤ '9'

/-- Python `tok.isdigit()`: non-empty and all characters are digits. -/
def pyIsDigit (s : List Char) : Bool := !s.isEmpty && s.all isDigitChar

/-- Consume exactly four leading digit characters (regex `\d{4}`),
returning the remainder. -/
def take4Digits : List Char → Option (List Char)
  | a :: b :: c :: d :: rest =>
      if isDigitChar a && isDigitChar b && isDigitChar c && isDigitChar d then
        some rest
      else none
  | _ => none

/-- One iteration of `\d{4}\s*`: four digits then any following whitespace. -/
def stripYearIter (s : List Char) : Option (List Char) :=
  (take4Digits s).map (·.dropWhile pyIsSpace)

/-- `re.sub(r"^(?:\d{4}\s*){1,3}", "", s)`: greedily strip one to three
stacked leading 4-digit year tokens (candidate albums). -/
def stripLeadingYearsCand (s : List Char) : List Char :=
  match stripYearIter s with
  | none => s
  | some s1 =>
      match stripYearIter s1 with
      | none => s1
      | some s2 =>
          match stripYearIter s2 with
          | none => s2
          | some s3 => s3

/-- `re.sub(r"^\d{4}\s+", "", s)`: strip a single leading 4-digit year that
is followed by at least one whitespace character (target albums). -/
def stripLeadingYearTarget (s : List Char) : List Char :=
  match take4Digits s with
  | some (c :: rest) =>
      if pyIsSpace c then (c :: rest).dropWhile pyIsSpace else s
  | _ => s

/-- `normalize_album_for_match` from `build_playlist.py`. -/
def normalize_album_for_match (s : List Char) (for_candidate : Bool) : List Char :=
  let n := normalize_text s
  let n := if for_candidate then stripLeadingYearsCand n else stripLeadingYearTarget n
  pyStrip (stripElision (stripArticle n))

/-- An opening bracket of the trailing-qualifier regex (`[\(\[]`). -/
def isOpenBracket (c : Char) : Bool := c = '(' || c = '['

/-- A closing bracket of the trailing-qualifier regex (`[\)\]]`). -/
def isCloseBracket (c : Char) : Bool := c = ')' || c = ']'

/-- A character allowed inside the qualifier (`[^^)\]]`). -/
def isQualInner (c : Char) : Bool := !(c = '^' || c = ')' || c = ']')

/-- Does the trailing-qualifier regex `\s*[\(\[][^^)\]]+[\)\]]\s*$` match the
whole of `s` starting at its first character position? -/
def qualMatch (s : List Char) : Bool :=
  match s.dropWhile pyIsSpace with
  | c :: rest =>
      isOpenBracket c &&
        (let inner := rest.takeWhile isQualInner
         let after := rest.dropWhile isQualInner
         !inner.isEmpty &&
           match after with
           | d :: rest2 => isCloseBracket d && (rest2.dropWhile pyIsSpace).isEmpty
           | [] => false)
  | [] => false

/-- Leftmost position (if any) where the trailing-qualifier regex matches. -/
def findQualIdx : List Char → Option Nat
  | [] => none
  | c :: cs => if qualMatch (c :: cs) then some 0 else (findQualIdx cs).map (· + 1)

/-- `normalize_artist` from `build_playlist.py`: strip one trailing
parenthetical/bracket qualifier, then apply generic normalization. -/
def normalize_artist (s : List Char) : List Char :=
  if s = [] then []
  else
    let base :=
      match findQualIdx s with
      | some i => s.take i
      | none => s
    normalize_text (pyStrip base)

/-- Does `re.fullmatch(r"s\s*/\s*t|s\.?\s*t\.?", token)` succeed? -/
def selfTitledTok (t : List Char) : Bool :=
  match t with
  | 's' :: rest =>
      (match rest.dropWhile pyIsSpace with
       | '/' :: r2 =>
           (match r2.dropWhile pyIsSpace with
            | ['t'] => true
            | _ => false)
       | _ => false) ||
      (let r1 := match rest with
                 | '.' :: r => r
                 | _ => rest
       match r1.dropWhile pyIsSpace with
       | 't' :: r3 => r3 = [] || r3 = ['.']
       | _ => false)
  | _ => false

/-- `resolve_self_titled` from `build_playlist.py`. -/
def resolve_self_titled (album artist : List Char) : List Char :=
  if selfTitledTok (pyLower (pyStrip album)) then pyStrip artist else album

/-- Numeric value of a digit string. -/
def natOfDigits (s : List Char) : ℕ := s.foldl (fun n c => 10 * n + (c.toNat - 48)) 0

/-- Scan for the regex `(?<!\d)(19\d{2}|20\d{2})(?!\d)`: all non-overlapping
standalone 4-digit years; `prevDigit` models the look-behind. The first
argument is structural-recursion fuel: every step consumes at least one
character, so fuel equal to the string length is sufficient. -/
def yearScanF : ℕ → List Char → Bool → List ℕ
  | 0, _, _ => []
  | fuel + 1, l, prevDigit =>
      match l with
      | a :: b :: c :: d :: rest =>
          if !prevDigit && ((a = '1' && b = '9') || (a = '2' && b = '0')) &&
              isDigitChar c && isDigitChar d &&
              (match rest with
               | e :: _ => !isDigitChar e
               | [] => true) then
            natOfDigits [a, b, c, d] :: yearScanF fuel rest false
          else
            yearScanF fuel (b :: c :: d :: rest) (isDigitChar a)
      | _ => []

/-- All standalone 4-digit years of a string, in scan order. -/
def yearsOf (s : List Char) : List ℕ := yearScanF s.length s false

/-- The contents of the `[...]` segments matched by
`re.finditer(r"\[(.*?)\]", s)` (non-greedy, `.` does not cross a newline).
Fuel-based like `yearScanF`. -/
def bracketSegsF : ℕ → List Char → List (List Char)
  | 0, _ => []
  | fuel + 1, l =>
      match l with
      | [] => []
      | c :: rest =>
          if c = '[' then
            let seg := rest.takeWhile fun d => !(d = ']' || d = '\n')
            let after := rest.dropWhile fun d => !(d = ']' || d = '\n')
            match after with
            | ']' :: rest2 => seg :: bracketSegsF fuel rest2
            | _ => bracketSegsF fuel rest
          else bracketSegsF fuel rest

/-- The bracketed segments of a string. -/
def bracketSegs (s : List Char) : List (List Char) := bracketSegsF s.length s

/-- Years found inside bracketed segments, in order of first appearance. -/
def bracketYears (s : List Char) : List ℕ := (bracketSegs s).flatMap yearsOf

/-- Append a year to the output unless it is already present. -/
def addYearUnique (out : List ℕ) (y : ℕ) : List ℕ :=
  if y ∈ out then out else out ++ [y]

/-- `extract_years` from `build_playlist.py`: bracketed years first, then any
remaining standalone years, deduplicated in order of first appearance. -/
def extract_years (s : List Char) : List ℕ :=
  (bracketYears s ++ yearsOf s).foldl addYearUnique []

/-- A target entry: artist, album, optional year string. -/
structure Entry where
  artist : List Char
  album : List Char
  year : Option (List Char)
deriving DecidableEq

/-- An indexed library album: directory root, artist and album folder names
(the audio/cue file lists play no role in matching). -/
structure Candidate where
  root : List Char
  artist : List Char
  album : List Char
deriving DecidableEq

/-- Python truthiness of an optional string (`None` and `""` are falsy). -/
def truthyStr : Option (List Char) → Bool
  | none => false
  | some s => !s.isEmpty

/-- Append an entry to its artist group, creating the group at the end on
first sight (Python dict insertion order). -/
def groupInsert (key : List Char) (e : Entry) :
    List (List Char × List Entry) → List (List Char × List Entry)
  | [] => [(key, [e])]
  | (k, es) :: rest =>
      if k = key then (k, es ++ [e]) :: rest
      else (k, es) :: groupInsert key e rest

/-- Group entries by normalized artist, preserving insertion order. -/
def groupByArtist (entries : List Entry) : List (List Char × List Entry) :=
  entries.foldl (fun gs e => groupInsert (normalize_artist e.artist) e gs) []

/-- Index of the first kept entry whose normalized album scores at least
`cutoff` under `token_set_ratio` against the new entry's normalized album. -/
def findDupIdx (albNorm : List Char) (cutoff : ℤ) : List Entry → Option ℕ
  | [] => none
  | k :: rest =>
      if (cutoff : ℚ) ≤ token_set_ratio albNorm (normalize_text k.album) then some 0
      else (findDupIdx albNorm cutoff rest).map (· + 1)

/-- Merge rule: copy the duplicate's year onto the kept entry when the kept
entry lacks one and the duplicate has one. -/
def mergeYear (k e : Entry) : Entry :=
  if !truthyStr k.year && truthyStr e.year then { k with year := e.year } else k

/-- Replace the element at an index by applying `f` (in-place mutation of
the kept list in the source). -/
def updateAt (f : Entry → Entry) : ℕ → List Entry → List Entry
  | _, [] => []
  | 0, k :: rest => f k :: rest
  | n + 1, k :: rest => k :: updateAt f n rest

/-- Process one artist group of `dedupe_entries` in original order. -/
def processGroup (cutoff : ℤ) (items : List Entry) : List Entry :=
  items.foldl
    (fun kept e =>
      match findDupIdx (normalize_text e.album) cutoff kept with
      | none => kept ++ [e]
      | some i => updateAt (fun k => mergeYear k e) i kept)
    []

/-- `dedupe_entries` from `build_playlist.py`. -/
def dedupe_entries (entries : List Entry) (cutoff : ℤ) : List Entry :=
  (groupByArtist entries).flatMap fun g => processGroup cutoff g.2

/-- Python `needle in hay` on strings (substring containment). -/
def strContains (hay needle : List Char) : Bool :=
  hay.tails.any fun t => needle.isPrefixOf t

/-- Does the raw artist string show a collaboration marker (`+`, `&`, `/`,
or a literal `" and "` in its lower-cased form)? -/
def hasCollabMarker (s : List Char) : Bool :=
  s.contains '+' || s.contains '&' || s.contains '/' ||
    strContains (pyLower s) " and ".data

/-- The fixed allow-list of generic band-descriptor / collaboration tokens
(`allowed_extras` in the source). -/
def allowed_extras : List (List Char) :=
  ["paraphernalia".data, "pepo".data, "mtoto".data, "wolf".data,
   "group".data, "band".data, "ensemble".data, "combination".data,
   "combo".data, "collective".data, "project".data, "orchestra".data,
   "quartet".data, "quintet".data, "sextet".data, "trio".data, "duo".data,
   "company".data, "and".data, "with".data, "feat".data, "featuring".data,
   "whole".data, "world".data]

/-- The allow-list of generic album-edition tokens
(`allowed_album_extras` in the source). -/
def allowed_album_extras : List (List Char) :=
  ["deluxe".data, "remaster".data, "remastered".data, "edition".data,
   "expanded".data, "mono".data, "stereo".data, "complete".data,
   "collection".data, "anthology".data]

/-- Set inclusion on token lists (Python `set.issubset`). -/
def subsetStr (A B : List (List Char)) : Bool := A.all (· ∈ B)

/-- Target-side context of one `best_match` call, computed once. -/
structure MatchCtx where
  origArtist : List Char
  tArtist : List Char
  tAlbum : List Char
  tAlbumNs : List Char
  tSelfTitled : Bool
  multiTarget : Bool
  cutoff : ℤ
  targetYear : Option (List Char)
deriving DecidableEq

/-- Build the target context from the raw `best_match` arguments. -/
def mkCtx (target_artist target_album : List Char) (score_cutoff : ℤ)
    (target_year : Option (List Char)) : MatchCtx :=
  let ta := normalize_artist target_artist
  let tal := normalize_album_for_match target_album false
  { origArtist := target_artist
    tArtist := ta
    tAlbum := tal
    tAlbumNs := tal.filter (· ≠ ' ')
    tSelfTitled := tal = ta
    multiTarget := hasCollabMarker target_artist
    cutoff := score_cutoff
    targetYear := target_year }

/-- Normalized candidate artist (artist profile), as in the main loop. -/
def candArtistNorm (c : Candidate) : List Char := normalize_artist c.artist

/-- Normalized candidate album (candidate profile). -/
def candAlbumNorm (c : Candidate) : List Char :=
  normalize_album_for_match c.album true

/-- `artist_set_score`. -/
def artistSetScore (ctx : MatchCtx) (c : Candidate) : ℚ :=
  token_set_ratio ctx.tArtist (candArtistNorm c)

/-- `artist_sort_score`. -/
def artistSortScore (ctx : MatchCtx) (c : Candidate) : ℚ :=
  token_sort_ratio ctx.tArtist (candArtistNorm c)

/-- `label_score`: token-set similarity of the combined
`"artist album"` strings. -/
def labelScore (ctx : MatchCtx) (c : Candidate) : ℚ :=
  token_set_ratio (ctx.tArtist ++ ' ' :: ctx.tAlbum)
    (candArtistNorm c ++ ' ' :: candAlbumNorm c)

/-- `album_token_score`. -/
def albumTokenScore (ctx : MatchCtx) (c : Candidate) : ℚ :=
  token_set_ratio ctx.tAlbum (candAlbumNorm c)

/-- `album_ns_score`: plain ratio of the no-space album strings. -/
def albumNsScore (ctx : MatchCtx) (c : Candidate) : ℚ :=
  fuzz_ratio ctx.tAlbumNs ((candAlbumNorm c).filter (· ≠ ' '))

/-- `album_score = max(album_token_score, album_ns_score)`. -/
def albumScore (ctx : MatchCtx) (c : Candidate) : ℚ :=
  max (albumTokenScore ctx c) (albumNsScore ctx c)

/-- The target's artist token set (`set(t_artist.split())`). -/
def tTokens (ctx : MatchCtx) : List (List Char) := dedupStr (splitWs ctx.tArtist)

/-- The candidate's artist token set. -/
def cTokens (c : Candidate) : List (List Char) :=
  dedupStr (splitWs (candArtistNorm c))

/-- `extras`: target tokens missing from the candidate, the possessive
token `"s"` discarded. -/
def extrasOf (ctx : MatchCtx) (c : Candidate) : List (List Char) :=
  (tTokens ctx).filter fun t => t ∉ cTokens c && t ≠ ['s']

/-- `artist_alias_ok`. -/
def artistAliasOk (ctx : MatchCtx) (c : Candidate) : Bool :=
  let ct := cTokens c
  let tt := tTokens ctx
  let extras := extrasOf ctx c
  !ct.isEmpty && subsetStr ct tt && 2 ≤ ct.length && !extras.isEmpty &&
    extras.all (· ∈ allowed_extras) &&
    ((max ctx.cutoff 95 : ℤ) : ℚ) ≤ albumScore ctx c

/-- `collab_ok`. -/
def collabOk (ctx : MatchCtx) (c : Candidate) : Bool :=
  let ct := cTokens c
  let tt := tTokens ctx
  subsetStr tt ct &&
    ((max ctx.cutoff 95 : ℤ) : ℚ) ≤ albumScore ctx c &&
    (85 : ℚ) ≤ artistSetScore ctx c &&
    (hasCollabMarker c.artist || ct.length ≤ tt.length + 2) &&
    2 ≤ tt.length

/-- `duo_subset_ok`. -/
def duoSubsetOk (ctx : MatchCtx) (c : Candidate) : Bool :=
  let ct := cTokens c
  let tt := tTokens ctx
  ctx.multiTarget && subsetStr ct tt && 2 ≤ ct.length &&
    ((max ctx.cutoff 95 : ℤ) : ℚ) ≤ albumScore ctx c &&
    (85 : ℚ) ≤ artistSetScore ctx c

/-- `single_token_superset`: single-token target with a strictly larger
candidate token set (set equality is order-insensitive). -/
def singleTokenSuperset (ctx : MatchCtx) (c : Candidate) : Bool :=
  let ct := cTokens c
  let tt := tTokens ctx
  tt.length = 1 && !(subsetStr ct tt && subsetStr tt ct) && subsetStr tt ct

/-- The artist gate before the single-token-superset guard. -/
def artistGatePre (ctx : MatchCtx) (c : Candidate) : Bool :=
  ((85 : ℚ) ≤ artistSetScore ctx c && (90 : ℚ) ≤ artistSortScore ctx c) ||
    artistAliasOk ctx c || collabOk ctx c || duoSubsetOk ctx c

/-- The artist gate (`artist_ok` after the guard that revokes single-token
superset matches unless the candidate is strictly self-titled). -/
def artistGate (ctx : MatchCtx) (c : Candidate) : Bool :=
  artistGatePre ctx c &&
    (!singleTokenSuperset ctx c ||
      (ctx.tSelfTitled && candAlbumNorm c = candArtistNorm c &&
        (99 : ℚ) ≤ albumNsScore ctx c))

/-- Candidate album tokens absent from the target album tokens. -/
def albumExtras (ctx : MatchCtx) (c : Candidate) : List (List Char) :=
  (dedupStr (splitWs (candAlbumNorm c))).filter
    (· ∉ dedupStr (splitWs ctx.tAlbum))

/-- `_extras_ok`: every extra album token is numeric or a generic
edition token. -/
def albumExtrasOk (toks : List (List Char)) : Bool :=
  toks.all fun tok => pyIsDigit tok || tok ∈ allowed_album_extras

/-- `strong_album_ok`: dual album gating, revoked for self-titled targets
whose candidate album introduces non-generic extra tokens. -/
def strongAlbumGate (ctx : MatchCtx) (c : Candidate) : Bool :=
  ((ctx.cutoff : ℚ) ≤ albumTokenScore ctx c &&
    ((max 85 (ctx.cutoff - 5) : ℤ) : ℚ) ≤ albumNsScore ctx c) &&
  !(ctx.tSelfTitled && !(albumExtras ctx c).isEmpty &&
      !albumExtrasOk (albumExtras ctx c))

/-- Candidate years: from the album folder name, then from the full path,
skipping years already seen. -/
def candYears (c : Candidate) : List ℕ :=
  let ys := extract_years c.album
  ys ++ (extract_years c.root).filter (· ∉ ys)

/-- Python `int(str(s))` on a string, `None` on failure. -/
def parseIntOpt (s : List Char) : Option ℤ :=
  match pyStrip s with
  | '-' :: ds =>
      if !ds.isEmpty && ds.all isDigitChar then some (-(natOfDigits ds : ℤ))
      else none
  | '+' :: ds =>
      if !ds.isEmpty && ds.all isDigitChar then some (natOfDigits ds : ℤ)
      else none
  | ds =>
      if !ds.isEmpty && ds.all isDigitChar then some (natOfDigits ds : ℤ)
      else none

/-- `year_diff`: minimum absolute difference between the target year and
any candidate year, when both are available. -/
def yearDiffOf (ctx : MatchCtx) (c : Candidate) : Option ℕ :=
  if truthyStr ctx.targetYear && !(candYears c).isEmpty then
    match ctx.targetYear with
    | some ys =>
        match parseIntOpt ys with
        | some ty =>
            (match (candYears c).map (fun y => ((y : ℤ) - ty).natAbs) with
             | [] => none
             | d :: ds => some (ds.foldl min d))
        | none => none
    | none => none
  else none

/-- The bonus-adjusted, clamped score of a passing candidate. -/
def hitScore (ctx : MatchCtx) (c : Candidate) : ℚ :=
  let base := max (labelScore ctx c) (albumScore ctx c)
  let bonused :=
    match yearDiffOf ctx c with
    | some 0 => min 100 (ratAddNat base 10)
    | some 1 => min 100 (ratAddNat base 5)
    | _ => base
  max 0 (min 100 bonused)

/-- One main-loop iteration: a hit `(candidate, score, year_diff)` when both
gates pass, nothing otherwise. -/
def hitOf (ctx : MatchCtx) (c : Candidate) :
    Option (Candidate × ℚ × Option ℕ) :=
  if artistGate ctx c && strongAlbumGate ctx c then
    some (c, hitScore ctx c, yearDiffOf ctx c)
  else none

/-- The list of viable hits, in candidate order. -/
def bmHits (ctx : MatchCtx) (candidates : List Candidate) :
    List (Candidate × ℚ × Option ℕ) :=
  candidates.filterMap (hitOf ctx)

/-- `year_bucket`: 0 = exact year, 1 = off by one, 2 = everything else. -/
def yearBucket : Option ℕ → ℕ
  | some 0 => 0
  | some 1 => 1
  | _ => 2

/-- Sort key comparison for hits: ascending year bucket, then descending
score. -/
def hitLe (a b : Candidate × ℚ × Option ℕ) : Bool :=
  yearBucket a.2.2 < yearBucket b.2.2 ||
    (yearBucket a.2.2 = yearBucket b.2.2 && b.2.1 ≤ a.2.1)

/-- Insert a hit after existing elements whose key is not greater
(stable insertion, as Python's stable `list.sort`). -/
def insertHit (x : Candidate × ℚ × Option ℕ) :
    List (Candidate × ℚ × Option ℕ) → List (Candidate × ℚ × Option ℕ)
  | [] => [x]
  | y :: ys => if hitLe y x then y :: insertHit x ys else x :: y :: ys

/-- Stable sort of the hits by `(year_bucket, -score)`. -/
def sortHits (l : List (Candidate × ℚ × Option ℕ)) :
    List (Candidate × ℚ × Option ℕ) :=
  l.foldl (fun acc x => insertHit x acc) []

/-- Selection among passing candidates: top of the sorted hits if its score
reaches the cutoff. -/
def selectHits (ctx : MatchCtx) (candidates : List Candidate) :
    Option (Candidate × ℚ) :=
  match sortHits (bmHits ctx candidates) with
  | [] => none
  | (c, s, _) :: _ => if ((ctx.cutoff : ℤ) : ℚ) ≤ s then some (c, s) else none

/-- The strong artist-similarity requirement shared by all three fallback
stages: token-set and token-sort scores of at least 90 against the
candidate artist normalized with plain `normalize_text`. -/
def fallbackArtistOk (ctx : MatchCtx) (c : Candidate) : Bool :=
  (90 : ℚ) ≤ token_set_ratio ctx.tArtist (normalize_text c.artist) &&
    (90 : ℚ) ≤ token_sort_ratio ctx.tArtist (normalize_text c.artist)

/-- One candidate of fallback 1: a prefix-compound album (target tokens
followed by the token `"and"`) with strong artist similarity. -/
def prefixTry (ctx : MatchCtx) (c : Candidate) : Option (Candidate × ℚ) :=
  if (splitWs ctx.tAlbum).length < (splitWs (candAlbumNorm c)).length &&
      (splitWs (candAlbumNorm c)).take (splitWs ctx.tAlbum).length =
        splitWs ctx.tAlbum &&
      (splitWs (candAlbumNorm c)).getD (splitWs ctx.tAlbum).length [] =
        "and".data &&
      fallbackArtistOk ctx c then
    some (c, ((max 90 ctx.cutoff : ℤ) : ℚ))
  else none

/-- Fallback 1: the prefix-compound candidates. -/
def prefixFallback (ctx : MatchCtx) (candidates : List Candidate) :
    List (Candidate × ℚ) :=
  candidates.filterMap (prefixTry ctx)

/-- Token filter dropping pure-numeric (year) tokens. -/
def stripYearTokens (toks : List (List Char)) : List (List Char) :=
  toks.filter fun tok => !pyIsDigit tok

/-- The score reported by the segment-compound fallback: `max(92, cutoff)`
exactly when a (truthy) target year string literally occurs in the
candidate's raw album text, else `max(90, cutoff)`. -/
def segmentScore (ctx : MatchCtx) (c : Candidate) : ℚ :=
  match ctx.targetYear with
  | some y =>
      if !y.isEmpty then
        if strContains c.album y then ((max 92 ctx.cutoff : ℤ) : ℚ)
        else ((max 90 ctx.cutoff : ℤ) : ℚ)
      else ((max 90 ctx.cutoff : ℤ) : ℚ)
  | none => ((max 90 ctx.cutoff : ℤ) : ℚ)

/-- Does a compound-title segment match the target album tokens: equal
after dropping pure-numeric year tokens, or starting with them? -/
def segMatches (ctx : MatchCtx) (toks : List (List Char)) : Bool :=
  stripYearTokens toks = splitWs ctx.tAlbum ||
    ((splitWs ctx.tAlbum).length ≤ toks.length &&
      toks.take (splitWs ctx.tAlbum).length = splitWs ctx.tAlbum)

/-- One candidate of fallback 2: split the candidate album at its first
`"and"` token (skip when absent, as the `continue`) and accept when either
segment matches the target album. -/
def segmentTry (ctx : MatchCtx) (c : Candidate) : Option (Candidate × ℚ) :=
  ((splitWs (candAlbumNorm c)).findIdx? (· = "and".data)).bind fun i =>
    if (segMatches ctx ((splitWs (candAlbumNorm c)).take i) ||
          segMatches ctx ((splitWs (candAlbumNorm c)).drop (i + 1))) &&
        fallbackArtistOk ctx c then
      some (c, segmentScore ctx c)
    else none

/-- Fallback 2: the compound-segment candidates. -/
def segmentFallback (ctx : MatchCtx) (candidates : List Candidate) :
    List (Candidate × ℚ) :=
  candidates.filterMap (segmentTry ctx)

/-- One candidate of fallback 3: the candidate album contains the target
album text as a substring (both non-empty). -/
def containsTry (ctx : MatchCtx) (c : Candidate) : Option (Candidate × ℚ) :=
  if !(candAlbumNorm c).isEmpty && !ctx.tAlbum.isEmpty &&
      strContains (candAlbumNorm c) ctx.tAlbum && fallbackArtistOk ctx c then
    some (c, ((max 90 ctx.cutoff : ℤ) : ℚ))
  else none

/-- Fallback 3: the containment candidates. -/
def containsFallback (ctx : MatchCtx) (candidates : List Candidate) :
    List (Candidate × ℚ) :=
  candidates.filterMap (containsTry ctx)

/-- The staged fallback chain: each stage fires only on a unique hit. -/
def fallbackChain (ctx : MatchCtx) (candidates : List Candidate) :
    Option (Candidate × ℚ) :=
  match prefixFallback ctx candidates with
  | [x] => some x
  | _ =>
      match segmentFallback ctx candidates with
      | [x] => some x
      | _ =>
          match containsFallback ctx candidates with
          | [x] => some x
          | _ => none

/-- `best_match` from `build_playlist.py`. -/
def best_match (target_artist target_album : List Char)
    (candidates : List Candidate) (score_cutoff : ℤ)
    (target_year : Option (List Char)) : Option (Candidate × ℚ) :=
  if candidates = [] then none
  else
    let ctx := mkCtx target_artist target_album score_cutoff target_year
    if bmHits ctx candidates = [] then fallbackChain ctx candidates
    else selectHits ctx candidates

/-- All characters of the string lie in the ASCII range (the scope on which
the transliteration step of the model is exact). -/
def allAscii (s : List Char) : Bool := s.all fun c => c.toNat < 128

/-- A 4-digit numeral token. -/
def isYear4 (y : List Char) : Bool := y.length = 4 && y.all isDigitChar

/-- Keep the first occurrence of each element, dropping later duplicates. -/
def firstUniques : List ℕ → List ℕ
  | [] => []
  | x :: xs => x :: firstUniques (xs.filter (· ≠ x))
termination_by l => l.length
decreasing_by
  exact Nat.lt_succ_of_le (List.length_filter_le _ _)

/-- The artist-alias exception as the claim words it: the candidate's token
set is a proper subset of the target's and every extra target token is in
the allow-list (no exclusion of the possessive token `"s"`). -/
def claimAliasOk (ctx : MatchCtx) (c : Candidate) : Bool :=
  let ct := cTokens c
  let tt := tTokens ctx
  subsetStr ct tt && !subsetStr tt ct && 2 ≤ ct.length &&
    (tt.filter (· ∉ ct)).all (· ∈ allowed_extras) &&
    ((max ctx.cutoff 95 : ℤ) : ℚ) ≤ albumScore ctx c

/-- The artist gate as the claim words it: plain scores, or one of the three
exceptions, with no single-token-superset guard. -/
def claimArtistGate (ctx : MatchCtx) (c : Candidate) : Bool :=
  ((85 : ℚ) ≤ artistSetScore ctx c && (90 : ℚ) ≤ artistSortScore ctx c) ||
    claimAliasOk ctx c || collabOk ctx c || duoSubsetOk ctx c

/-- The first character, if any, is not whitespace. -/
def firstNotWs : List Char → Bool
  | c :: _ => !pyIsSpace c
  | [] => true

/-- The last character, if any, is not whitespace. -/
def lastNotWs (s : List Char) : Bool := firstNotWs s.reverse

/-- No two adjacent whitespace characters. -/
def noTwoWs : List Char → Bool
  | a :: b :: rest => !(pyIsSpace a && pyIsSpace b) && noTwoWs (b :: rest)
  | _ => true

/-- A character that can appear in `normalize_text` output on ASCII input:
ASCII, not uppercase, none of the replaced specials, not in the punctuation
class, and whitespace only as a plain space. -/
def goodChar (c : Char) : Bool :=
  c.toNat < 128 && !('A' ≤ c && c ≤ 'Z') &&
    !(c = '&' || c = '+' || c = '/' || c = '.') && !isPunctClass c &&
    (!pyIsSpace c || c = ' ')

/-- The shape invariant of `normalize_text` output on ASCII input. -/
def normalizedShape (s : List Char) : Bool :=
  s.all goodChar && noTwoWs s && firstNotWs s && lastNotWs s

/-- Concrete fixture: the "Color Humano" candidate of the dual-gating
testable property. -/
def chCand : Candidate :=
  { root := "D:\\Music\\Color Humano\\Color Humano".data,
    artist := "Color Humano".data, album := "Color Humano".data }

/-- Concrete fixture: the "Darryl Way's Wolf" candidate of the alias
acceptance property. -/
def dwCand : Candidate :=
  { root := [], artist := "Darryl Way's Wolf".data,
    album := "Canis Lupus".data }

/-- Concrete fixture: a plain "Darryl Way" candidate (for the reversed
alias direction). -/
def dwRevCand : Candidate :=
  { root := [], artist := "Darryl Way".data, album := "Canis Lupus".data }

/-- Concrete fixture: target context with artist "Darryl Way's Wolf". -/
def dwRevCtx : MatchCtx :=
  mkCtx "Darryl Way's Wolf".data "Canis Lupus".data 85 none

/-- Concrete fixture: a Genesis candidate whose album starts with the
token "and" after normalization. -/
def genCand : Candidate :=
  { root := [], artist := "Genesis".data,
    album := "And Then There Were Three".data }

/-- Concrete fixture: a King Crimson candidate with a bracketed year. -/
def kcCand : Candidate :=
  { root := [], artist := "King Crimson".data,
    album := "[1969] In the Court of the Crimson King".data }

end BuildPlaylist

namespace BuildPlaylist

example : normalize_text "Color Humano".data = "color humano".data := by decide

example : normalize_text "the the cat".data = "the cat".data := by decide

example : normalize_text "T.R.A.M.".data = "tram".data := by decide

example : normalize_text "Darryl Way's Wolf".data = "darryl way s wolf".data := by decide

example : lcsLen "abcd".data "abed".data = 3 := by decide

example : fuzz_ratio "color".data "colorhumano".data = mkRat 125 2 := by decide

example : token_set_ratio "color".data "color humano".data = 100 := by decide

example : token_set_ratio "strangewings".data "strange wings".data = 96 := by decide

example : token_set_ratio "".data "x".data = 0 := by decide

example : token_sort_ratio "darryl way".data "darryl way s wolf".data = mkRat 2000 27 := by decide

example : extract_years "[1973 (2004)] Title".data = [1973, 2004] := by decide

example : extract_years "19731974 in 1999".data = [1999] := by decide

example : normalize_album_for_match "[1994]".data true = [] := by decide

example : normalize_album_for_match "1984".data false = "1984".data := by decide

example : normalize_album_for_match "[1970 (2021)] Les Porches".data true = "porches".data := by decide

example : normalize_artist "Asia (US)".data = "asia".data := by decide

example : normalize_artist "Darryl Way's Wolf".data = "darryl way s wolf".data := by decide

example : resolve_self_titled "s/t".data "King Crimson".data = "King Crimson".data := by decide

example : resolve_self_titled "S.T.".data "X".data = "X".data := by decide

example : resolve_self_titled "st".data "Y".data = "Y".data := by decide

example : resolve_self_titled "Red".data "King Crimson".data = "Red".data := by decide

example :
    best_match "King Crimson".data "In the Court of the Crimson King".data
      [kcCand] 80 (some "1969".data) = some (kcCand, 100) := by decide

/-! ## Helper lemmas -/

theorem isDigitChar_toNat {d : Char} (h : isDigitChar d = true) :
    48 ≤ d.toNat ∧ d.toNat ≤ 57 := by
  simp only [isDigitChar, Bool.and_eq_true, decide_eq_true_eq, Char.le_def,
    UInt32.le_def, BitVec.le_def] at h
  exact h

theorem char_ne_of_toNat {c d : Char} (h : c.toNat ≠ d.toNat) : c ≠ d :=
  fun he => h (by rw [he])

theorem pyIsSpace_toNat {c : Char} (h : pyIsSpace c = true) :
    c.toNat = 32 ∨ c.toNat ≤ 31 := by
  simp only [pyIsSpace, Bool.or_eq_true, decide_eq_true_eq] at h
  rcases h with (((((((((h | h) | h) | h) | h) | h) | h) | h) | h) | h)
  all_goals (subst h; decide)

theorem pyIsSpace_digit {d : Char} (h : isDigitChar d = true) :
    pyIsSpace d = false := by
  obtain ⟨h1, h2⟩ := isDigitChar_toNat h
  cases hs : pyIsSpace d with
  | false => rfl
  | true => rcases pyIsSpace_toNat hs with h3 | h3 <;> omega

theorem dropWhile_ws_eq_self {s : List Char} (h : firstNotWs s = true) :
    s.dropWhile pyIsSpace = s := by
  cases s with
  | nil => rfl
  | cons c t =>
      simp only [firstNotWs, Bool.not_eq_eq_eq_not, Bool.not_true] at h
      simp [List.dropWhile, h]

theorem pyStrip_eq_self {s : List Char} (h1 : firstNotWs s = true)
    (h2 : lastNotWs s = true) : pyStrip s = s := by
  rw [pyStrip, dropWhile_ws_eq_self h1, dropWhile_ws_eq_self h2,
    List.reverse_reverse]

theorem take4Digits_append {a rest : List Char} (h : isYear4 a = true) :
    take4Digits (a ++ rest) = some rest := by
  rcases a with _ | ⟨c1, _ | ⟨c2, _ | ⟨c3, _ | ⟨c4, _ | ⟨c5, t⟩⟩⟩⟩⟩ <;>
    simp only [isYear4, List.length, Bool.and_eq_true, decide_eq_true_eq,
      List.all_cons, List.all_nil] at h
  · omega
  · omega
  · omega
  · omega
  · obtain ⟨-, h1, h2, h3, h4, -⟩ := h
    simp [take4Digits, h1, h2, h3, h4]
  · omega

theorem foldl_addYearUnique (l : List ℕ) :
    ∀ acc : List ℕ,
      l.foldl addYearUnique acc = acc ++ firstUniques (l.filter (· ∉ acc)) := by
  induction l with
  | nil => intro acc; simp [firstUniques]
  | cons x xs ih =>
      intro acc
      by_cases hx : x ∈ acc
      · simpa [List.foldl_cons, addYearUnique, hx, decide_eq_true_eq] using ih acc
      · have step : addYearUnique acc x = acc ++ [x] := by
          simp [addYearUnique, hx]
        rw [List.foldl_cons, step, ih (acc ++ [x])]
        have hfilter :
            xs.filter (fun y => decide (y ∉ acc ++ [x])) =
              (xs.filter (fun y => decide (y ∉ acc))).filter (fun y => decide (y ≠ x)) := by
          rw [List.filter_filter]
          apply List.filter_congr
          intro y _
          by_cases h1 : y = x <;> by_cases h2 : y ∈ acc <;>
            simp [h1, h2, List.mem_append]
        have hhead : (x :: xs).filter (fun y => decide (y ∉ acc)) =
            x :: xs.filter (fun y => decide (y ∉ acc)) := by
          simp [hx]
        rw [hhead, firstUniques, hfilter]
        simp

theorem stripYearIter_append {a rest : List Char} (h : isYear4 a = true) :
    stripYearIter (a ++ rest) = some (rest.dropWhile pyIsSpace) := by
  simp [stripYearIter, take4Digits_append h]

theorem isYear4_dropWhile {b : List Char} (h : isYear4 b = true) :
    b.dropWhile pyIsSpace = b := by
  rcases b with _ | ⟨d, t⟩
  · rfl
  · have hd : isDigitChar d = true := by
      simp only [isYear4, Bool.and_eq_true, List.all_cons] at h
      exact h.2.1
    simp [List.dropWhile, pyIsSpace_digit hd]

theorem joinSpace_one (a : List Char) : joinSpace [a] = a := by
  simp [joinSpace, List.intercalate]

theorem joinSpace_two (a b : List Char) : joinSpace [a, b] = a ++ ' ' :: b := by
  simp [joinSpace, List.intercalate]

theorem joinSpace_three (a b c : List Char) :
    joinSpace [a, b, c] = a ++ ' ' :: (b ++ ' ' :: c) := by
  simp [joinSpace, List.intercalate]

theorem stripYearIter_year_space {a rest : List Char} (h : isYear4 a = true) :
    stripYearIter (a ++ ' ' :: rest) = some (rest.dropWhile pyIsSpace) := by
  rw [stripYearIter_append h]
  simp [List.dropWhile, show pyIsSpace ' ' = true from by decide]

theorem articleApplies_digit {w : List Char} {d : Char} {rest : List Char}
    (hw : w ∈ articleWords) (hd : isDigitChar d = true) :
    articleApplies w (d :: rest) = false := by
  obtain ⟨h1, h2⟩ := isDigitChar_toNat hd
  have hne : ∀ c : Char, 57 < c.toNat → (c == d) = false := fun c hc =>
    beq_eq_false_iff_ne.mpr fun he => by subst he; omega
  fin_cases hw <;>
    simp [articleApplies, List.isPrefixOf, hne 't' (by decide),
      hne 'a' (by decide), hne 'l' (by decide), hne 'e' (by decide),
      hne 'd' (by decide)]

theorem stripArticle_digit {d : Char} {rest : List Char}
    (hd : isDigitChar d = true) : stripArticle (d :: rest) = d :: rest := by
  rw [stripArticle]
  have hfind : articleWords.find? (fun w => articleApplies w (d :: rest)) = none :=
    List.find?_eq_none.mpr fun w hw => by
      rw [articleApplies_digit hw hd]; exact Bool.false_ne_true
  rw [hfind]

theorem stripElision_digit {d : Char} {rest : List Char}
    (hd : isDigitChar d = true) : stripElision (d :: rest) = d :: rest := by
  obtain ⟨h1, h2⟩ := isDigitChar_toNat hd
  have hne : ¬(d = 'l') := fun he => by subst he; revert h2; decide
  simp [stripElision, hne]

theorem normalize_album_cand_eq (s : List Char) :
    normalize_album_for_match s true =
      pyStrip (stripElision (stripArticle (stripLeadingYearsCand (normalize_text s)))) := by
  simp only [normalize_album_for_match, eq_self_iff_true, if_true]

theorem normalize_album_target_eq (s : List Char) :
    normalize_album_for_match s false =
      pyStrip (stripElision (stripArticle (stripLeadingYearTarget (normalize_text s)))) := by
  simp only [normalize_album_for_match, Bool.false_eq_true, if_false]

/-- C1: the spec requires `bestMatch("Color Humano", "Color",
[candidate album="Color Humano"], cutoff=85)` to return no match (and the
source's own comments state that target "Color" must not match candidate
album "Color Humano"), but the containment fallback stage returns the
candidate with score `max(90, 85) = 90`: the dual album gate does reject
the candidate, yet the third fallback resurrects it. -/
theorem best_match_color_humano_code_bug :
    best_match "Color Humano".data "Color".data [chCand] 85 none =
      some (chCand, 90) ∧
    strongAlbumGate (mkCtx "Color Humano".data "Color".data 85 none) chCand =
      false ∧
    containsFallback (mkCtx "Color Humano".data "Color".data 85 none) [chCand] =
      [(chCand, 90)] := by
  refine ⟨by decide, by decide, by decide⟩

/-- C6: `extract_years` returns the bracketed years first (order of first
appearance) followed by the remaining standalone years, deduplicated by
first occurrence; in particular
`extract_years "[1973 (2004)] Title" = [1973, 2004]`. -/
theorem extract_years_spec :
    (∀ s : List Char,
        extract_years s = firstUniques (bracketYears s ++ yearsOf s)) ∧
    extract_years "[1973 (2004)] Title".data = [1973, 2004] := by
  constructor
  · intro s
    rw [extract_years, foldl_addYearUnique]
    simp
  · decide

/-- C7: `dedupe_entries` groups by normalized artist, merges an entry into
the first previously kept entry whose normalized album scores at least the
cutoff under token-set similarity, and backfills a missing year from the
duplicate: deduping `[{"Artist","Strangewings",none},
{"Artist","Strange Wings","1975"}]` at cutoff 90 yields exactly one entry
with album "Strangewings" and year "1975". -/
theorem dedupe_entries_merges_and_backfills :
    dedupe_entries
      [⟨"Artist".data, "Strangewings".data, none⟩,
       ⟨"Artist".data, "Strange Wings".data, some "1975".data⟩] 90 =
      [⟨"Artist".data, "Strangewings".data, some "1975".data⟩] := by
  decide

/-- C8: `resolve_self_titled` returns the (stripped) artist name exactly
when the stripped, lower-cased album text matches the self-titled shorthand
pattern `s/t` / `s.t.` (with optional punctuation/spacing variants), and
returns any other album text unchanged; in particular
`resolve_self_titled "s/t" "King Crimson" = "King Crimson"` and
`resolve_self_titled "S.T." "X" = "X"`. -/
theorem resolve_self_titled_spec :
    resolve_self_titled "s/t".data "King Crimson".data = "King Crimson".data ∧
    resolve_self_titled "S.T.".data "X".data = "X".data ∧
    (∀ album artist : List Char,
        selfTitledTok (pyLower (pyStrip album)) = true →
        resolve_self_titled album artist = pyStrip artist) ∧
    (∀ album artist : List Char,
        selfTitledTok (pyLower (pyStrip album)) = false →
        resolve_self_titled album artist = album) := by
  refine ⟨by decide, by decide, ?_, ?_⟩
  · intro album artist h
    simp [resolve_self_titled, h]
  · intro album artist h
    simp [resolve_self_titled, h]

/-- Witness for C8: the implications applied at concrete inputs. -/
theorem resolve_self_titled_spec_witness :
    (selfTitledTok (pyLower (pyStrip "s.t.".data)) = true ∧
      resolve_self_titled "s.t.".data "Camel".data = pyStrip "Camel".data) ∧
    (selfTitledTok (pyLower (pyStrip "Mirage".data)) = false ∧
      resolve_self_titled "Mirage".data "Camel".data = "Mirage".data) :=
  ⟨⟨by decide, resolve_self_titled_spec.2.2.1 _ _ (by decide)⟩,
   ⟨by decide, resolve_self_titled_spec.2.2.2 _ _ (by decide)⟩⟩

/-- C10: album normalization is asymmetric on year-only titles: a candidate
album consisting only of one to three leading 4-digit year tokens (such as
"[1994]") normalizes to the empty string under the candidate profile,
whereas a target album that is exactly a bare 4-digit year such as "1984"
is returned unchanged, because target-side year stripping requires
whitespace after the year token. -/
theorem normalize_album_year_asymmetry :
    normalize_album_for_match "[1994]".data true = [] ∧
    normalize_album_for_match "1984".data false = "1984".data ∧
    (∀ s : List Char, ∀ ys : List (List Char),
        normalize_text s = joinSpace ys → ys ≠ [] → ys.length ≤ 3 →
        (∀ y ∈ ys, isYear4 y = true) →
        normalize_album_for_match s true = []) ∧
    (∀ s : List Char, isYear4 (normalize_text s) = true →
        normalize_album_for_match s false = normalize_text s) := by
  refine ⟨by decide, by decide, ?_, ?_⟩
  · intro s ys hnorm hne hlen hall
    rw [normalize_album_cand_eq, hnorm]
    have hstrip : stripLeadingYearsCand (joinSpace ys) = [] := by
      rcases ys with _ | ⟨a, _ | ⟨b, _ | ⟨c, _ | ⟨d, t⟩⟩⟩⟩
      · exact absurd rfl hne
      · have ha := hall a (by simp)
        rw [joinSpace_one]
        have h1 : stripYearIter a = some [] := by
          have := @stripYearIter_append a [] ha
          simpa using this
        simp only [stripLeadingYearsCand, h1,
          show stripYearIter [] = none from rfl]
      · have ha := hall a (by simp)
        have hb := hall b (by simp)
        rw [joinSpace_two]
        have h1 : stripYearIter (a ++ ' ' :: b) = some b := by
          rw [stripYearIter_year_space ha, isYear4_dropWhile hb]
        have h2 : stripYearIter b = some [] := by
          have := @stripYearIter_append b [] hb
          simpa using this
        simp only [stripLeadingYearsCand, h1, h2,
          show stripYearIter [] = none from rfl]
      · have ha := hall a (by simp)
        have hb := hall b (by simp)
        have hc := hall c (by simp)
        rw [joinSpace_three]
        have h1 : stripYearIter (a ++ ' ' :: (b ++ ' ' :: c)) =
            some (b ++ ' ' :: c) := by
          rw [stripYearIter_year_space ha]
          rcases b with _ | ⟨d0, t0⟩
          · simp [isYear4] at hb
          · have hd0 : isDigitChar d0 = true := by
              simp only [isYear4, Bool.and_eq_true, List.all_cons] at hb
              exact hb.2.1
            simp [List.dropWhile, pyIsSpace_digit hd0]
        have h2 : stripYearIter (b ++ ' ' :: c) = some c := by
          rw [stripYearIter_year_space hb, isYear4_dropWhile hc]
        have h3 : stripYearIter c = some [] := by
          have := @stripYearIter_append c [] hc
          simpa using this
        simp only [stripLeadingYearsCand, h1, h2, h3]
      · simp at hlen
    rw [hstrip]
    decide
  · intro s hyear
    rw [normalize_album_target_eq]
    rcases hn : normalize_text s with _ | ⟨d1, _ | ⟨d2, _ | ⟨d3, _ | ⟨d4, _ | ⟨d5, t⟩⟩⟩⟩⟩ <;>
      rw [hn] at hyear <;>
      simp only [isYear4, List.length, Bool.and_eq_true, decide_eq_true_eq,
        List.all_cons, List.all_nil] at hyear
    · omega
    · omega
    · omega
    · omega
    · obtain ⟨-, hd1, hd2, hd3, hd4, -⟩ := hyear
      have htarget : stripLeadingYearTarget [d1, d2, d3, d4] = [d1, d2, d3, d4] := by
        simp [stripLeadingYearTarget, take4Digits, hd1, hd2, hd3, hd4]
      rw [htarget, stripArticle_digit hd1, stripElision_digit hd1]
      apply pyStrip_eq_self
      · simp [firstNotWs, pyIsSpace_digit hd1]
      · simp [lastNotWs, firstNotWs, pyIsSpace_digit hd4]
    · omega

/-- Witness for C10: the universal parts applied at "[1970 (2021)]" (two
stacked year tokens) and at the bare-year target "2001". -/
theorem normalize_album_year_asymmetry_witness :
    normalize_album_for_match "[1970 (2021)]".data true = [] ∧
    normalize_album_for_match "2001".data false = normalize_text "2001".data :=
  ⟨normalize_album_year_asymmetry.2.2.1 "[1970 (2021)]".data
      ["1970".data, "2021".data] (by decide) (by decide) (by decide)
      (by decide),
    normalize_album_year_asymmetry.2.2.2 "2001".data (by decide)⟩

theorem token_set_ratio_nil_left (b : List Char) : token_set_ratio [] b = 0 := by
  rfl

/-- An empty normalized target artist makes every artist gate and every
fallback artist check fail, so `best_match` returns nothing. -/
theorem best_match_of_artist_norm_nil {ta : List Char}
    (h : normalize_artist ta = []) (tal : List Char)
    (cands : List Candidate) (cutoff : ℤ) (ty : Option (List Char)) :
    best_match ta tal cands cutoff ty = none := by
  set ctx := mkCtx ta tal cutoff ty with hctx
  have hart : ctx.tArtist = [] := by rw [hctx]; simp [mkCtx, h]
  have hts : ∀ ca, token_set_ratio ctx.tArtist ca = 0 := fun ca => by
    rw [hart]; exact token_set_ratio_nil_left ca
  have h85 : (decide ((85 : ℚ) ≤ (0 : ℚ))) = false := by decide
  have h90 : (decide ((90 : ℚ) ≤ (0 : ℚ))) = false := by decide
  have htt : tTokens ctx = [] := by rw [tTokens, hart]; rfl
  have hgate : ∀ c, artistGate ctx c = false := by
    intro c
    have hset : artistSetScore ctx c = 0 := hts _
    have hpre : artistGatePre ctx c = false := by
      have halias : artistAliasOk ctx c = false := by
        rcases hct : cTokens c with _ | ⟨x, xs⟩
        · simp [artistAliasOk, hct]
        · simp [artistAliasOk, hct, htt, subsetStr]
      have hcollab : collabOk ctx c = false := by
        simp [collabOk, hset, h85]
      have hduo : duoSubsetOk ctx c = false := by
        simp [duoSubsetOk, hset, h85]
      simp [artistGatePre, hset, h85, halias, hcollab, hduo]
    simp [artistGate, hpre]
  have hhits : bmHits ctx cands = [] :=
    List.filterMap_eq_nil_iff.mpr fun c _ => by simp [hitOf, hgate c]
  have hfb : ∀ c, fallbackArtistOk ctx c = false := fun c => by
    simp [fallbackArtistOk, hts, h90]
  have hpre : prefixFallback ctx cands = [] :=
    List.filterMap_eq_nil_iff.mpr fun c _ => by
      simp [prefixTry, hfb c]
  have hseg : segmentFallback ctx cands = [] :=
    List.filterMap_eq_nil_iff.mpr fun c _ => by
      rw [segmentTry]
      rcases hidx : (splitWs (candAlbumNorm c)).findIdx? (· = "and".data) with
        _ | i
      · rw [Option.none_bind]
      · rw [Option.some_bind]
        simp [hfb c]
  have hcon : containsFallback ctx cands = [] :=
    List.filterMap_eq_nil_iff.mpr fun c _ => by
      simp [containsTry, hfb c]
  by_cases hc : cands = []
  · simp [best_match, hc]
  · simp only [best_match, hc, if_false, ← hctx, hhits, if_pos rfl,
      fallbackChain, hpre, hseg, hcon]
    simp

/-- C5 (amended): all normalization functions are total and map the empty
string to the empty result, and a target whose ARTIST normalizes to empty
is never matched by `best_match`; a target whose album normalizes to empty
can still be matched through the compound fallback stages (see the
counterexample), so the claim's "artist or album" is weakened to the artist
side. -/
theorem normalization_total_and_empty :
    normalize_text [] = [] ∧ normalize_artist [] = [] ∧
    (∀ b, normalize_album_for_match [] b = []) ∧ extract_years [] = [] ∧
    (∀ (ta tal : List Char) (cands : List Candidate) (cutoff : ℤ)
        (ty : Option (List Char)), normalize_artist ta = [] →
        best_match ta tal cands cutoff ty = none) := by
  refine ⟨by decide, by decide, ?_, by decide, ?_⟩
  · intro b; cases b <;> decide
  · intro ta tal cands cutoff ty h
    exact best_match_of_artist_norm_nil h tal cands cutoff ty

/-- Counterexample for C5: the target ("Genesis", "...") has an album that
normalizes to the empty string and a positive cutoff, yet `best_match`
returns the "And Then There Were Three" candidate with score 90 through
the prefix-compound fallback (whose empty target token list trivially
prefixes any candidate album starting with the token "and"). -/
theorem empty_album_matched_counterexample :
    normalize_album_for_match "...".data false = [] ∧ (0 : ℤ) < 85 ∧
    best_match "Genesis".data "...".data [genCand] 85 none =
      some (genCand, 90) :=
  ⟨by decide, by decide, by decide⟩

/-- Witness for C5: the artist-side implication applied at a concrete
artist that normalizes to empty. -/
theorem normalization_total_and_empty_witness :
    normalize_artist "++".data = [] ∧
    best_match "++".data "Album".data [chCand] 85 none = none :=
  ⟨by decide,
    normalization_total_and_empty.2.2.2.2 "++".data "Album".data [chCand] 85
      none (by decide)⟩

theorem normSim_le_100 (d t : ℕ) : normSim d t ≤ 100 := by
  rw [normSim]
  split
  · exact le_refl _
  · rename_i ht
    have ht' : (0 : ℚ) < (t : ℚ) := by
      exact_mod_cast Nat.pos_of_ne_zero ht
    rw [Rat.mkRat_eq_divInt, Rat.divInt_eq_div]
    push_cast
    rw [div_le_iff₀ ht']
    have hsub : ((t - d : ℕ) : ℚ) ≤ (t : ℚ) := by
      exact_mod_cast Nat.sub_le t d
    nlinarith

theorem token_set_ratio_le_100 (a b : List Char) :
    token_set_ratio a b ≤ 100 := by
  simp only [token_set_ratio]
  split
  · norm_num
  · split
    · exact le_refl _
    · split
      · exact normSim_le_100 _ _
      · exact max_le (normSim_le_100 _ _)
          (max_le (normSim_le_100 _ _) (normSim_le_100 _ _))

theorem ratAddNat_eq (q : ℚ) (n : ℕ) : ratAddNat q n = q + n := by
  have hd : ((q.den : ℚ)) ≠ 0 := by exact_mod_cast q.den_nz
  have hnum : q * (q.den : ℚ) = (q.num : ℚ) := by
    have h := Rat.num_div_den q
    calc q * (q.den : ℚ) = (q.num : ℚ) / (q.den : ℚ) * (q.den : ℚ) := by
          rw [h]
      _ = (q.num : ℚ) := div_mul_cancel₀ _ hd
  rw [ratAddNat, Rat.mkRat_eq_divInt, Rat.divInt_eq_div]
  push_cast
  rw [eq_comm, eq_div_iff hd, add_mul, hnum]

theorem hitOf_inv {ctx : MatchCtx} {c : Candidate} {h' : Candidate × ℚ × Option ℕ}
    (hh : hitOf ctx c = some h') :
    artistGate ctx c = true ∧ strongAlbumGate ctx c = true ∧
      h' = (c, hitScore ctx c, yearDiffOf ctx c) := by
  rw [hitOf] at hh
  split at hh
  · rename_i hcond
    simp only [Bool.and_eq_true] at hcond
    exact ⟨hcond.1, hcond.2, (Option.some_inj.mp hh).symm⟩
  · exact absurd hh (by simp)

theorem hit_score_ge_cutoff {ctx : MatchCtx} {c : Candidate}
    (hstrong : strongAlbumGate ctx c = true) :
    ((ctx.cutoff : ℤ) : ℚ) ≤ hitScore ctx c := by
  have htok : ((ctx.cutoff : ℤ) : ℚ) ≤ albumTokenScore ctx c := by
    simp only [strongAlbumGate, Bool.and_eq_true, decide_eq_true_eq] at hstrong
    exact hstrong.1.1
  have h100 : ((ctx.cutoff : ℤ) : ℚ) ≤ 100 :=
    le_trans htok (token_set_ratio_le_100 _ _)
  have hbase : ((ctx.cutoff : ℤ) : ℚ) ≤ max (labelScore ctx c) (albumScore ctx c) :=
    le_max_of_le_right (le_trans htok (le_max_left _ _))
  rw [hitScore]
  rcases hyd : yearDiffOf ctx c with _ | n
  · simp only [hyd]
    exact le_max_of_le_right (le_min h100 hbase)
  · match n with
    | 0 =>
        simp only [hyd]
        refine le_max_of_le_right (le_min h100 (le_min h100 ?_))
        rw [ratAddNat_eq]
        exact le_trans hbase (by norm_num)
    | 1 =>
        simp only [hyd]
        refine le_max_of_le_right (le_min h100 (le_min h100 ?_))
        rw [ratAddNat_eq]
        exact le_trans hbase (by norm_num)
    | m + 2 =>
        simp only [hyd]
        exact le_max_of_le_right (le_min h100 hbase)

theorem prefixFallback_score {ctx : MatchCtx} {cands : List Candidate}
    {p : Candidate × ℚ} (h : p ∈ prefixFallback ctx cands) :
    p.2 = ((max 90 ctx.cutoff : ℤ) : ℚ) := by
  rw [prefixFallback, List.mem_filterMap] at h
  obtain ⟨c, -, hc⟩ := h
  rw [prefixTry] at hc
  split at hc
  · rw [Option.some_inj] at hc
    rw [← hc]
  · exact absurd hc (by simp)

theorem segmentFallback_score {ctx : MatchCtx} {cands : List Candidate}
    {p : Candidate × ℚ} (h : p ∈ segmentFallback ctx cands) :
    p.2 = segmentScore ctx p.1 := by
  rw [segmentFallback, List.mem_filterMap] at h
  obtain ⟨c, -, hc⟩ := h
  rw [segmentTry] at hc
  rcases hidx : (splitWs (candAlbumNorm c)).findIdx? (· = "and".data) with
    _ | i
  · rw [hidx, Option.none_bind] at hc
    exact absurd hc (by simp)
  · rw [hidx, Option.some_bind] at hc
    split at hc
    · rw [Option.some_inj] at hc
      rw [← hc]
    · exact absurd hc (by simp)

theorem containsFallback_score {ctx : MatchCtx} {cands : List Candidate}
    {p : Candidate × ℚ} (h : p ∈ containsFallback ctx cands) :
    p.2 = ((max 90 ctx.cutoff : ℤ) : ℚ) := by
  rw [containsFallback, List.mem_filterMap] at h
  obtain ⟨c, -, hc⟩ := h
  rw [containsTry] at hc
  split at hc
  · rw [Option.some_inj] at hc
    rw [← hc]
  · exact absurd hc (by simp)

theorem fallbackChain_mem {ctx : MatchCtx} {cands : List Candidate}
    {r : Candidate × ℚ} (h : fallbackChain ctx cands = some r) :
    r ∈ prefixFallback ctx cands ∨ r ∈ segmentFallback ctx cands ∨
      r ∈ containsFallback ctx cands := by
  rw [fallbackChain] at h
  split at h
  · rename_i x heq
    left
    rw [heq, List.mem_singleton]
    exact (Option.some_inj.mp h).symm
  · split at h
    · rename_i x heq
      right; left
      rw [heq, List.mem_singleton]
      exact (Option.some_inj.mp h).symm
    · split at h
      · rename_i x heq
        right; right
        rw [heq, List.mem_singleton]
        exact (Option.some_inj.mp h).symm
      · exact absurd h (by simp)

theorem fallbackChain_score {ctx : MatchCtx} {cands : List Candidate}
    {r : Candidate × ℚ} (h : fallbackChain ctx cands = some r) :
    ((ctx.cutoff : ℤ) : ℚ) ≤ r.2 := by
  have hcast90 : ((ctx.cutoff : ℤ) : ℚ) ≤ ((max 90 ctx.cutoff : ℤ) : ℚ) :=
    Int.cast_le.mpr (le_max_right 90 ctx.cutoff)
  have hcast92 : ((ctx.cutoff : ℤ) : ℚ) ≤ ((max 92 ctx.cutoff : ℤ) : ℚ) :=
    Int.cast_le.mpr (le_max_right 92 ctx.cutoff)
  rcases fallbackChain_mem h with hx | hx | hx
  · rw [prefixFallback_score hx]
    exact hcast90
  · rw [segmentFallback_score hx]
    simp only [segmentScore]
    split
    · split
      · split
        · exact hcast92
        · exact hcast90
      · exact hcast90
    · exact hcast90
  · rw [containsFallback_score hx]
    exact hcast90

/-- C2: whenever `best_match` returns a result — through the gated main
selection or through any fallback stage — its score is at least the
caller-supplied cutoff; each prefix-compound and containment fallback hit
reports `max(90, cutoff)`, and a segment-compound hit reports
`max(92, cutoff)` exactly when the target year string literally occurs in
the candidate's raw album text (else `max(90, cutoff)`). -/
theorem best_match_score_invariant (ta tal : List Char)
    (cands : List Candidate) (cutoff : ℤ) (ty : Option (List Char)) :
    (∀ r : Candidate × ℚ, best_match ta tal cands cutoff ty = some r →
        ((cutoff : ℤ) : ℚ) ≤ r.2) ∧
    (∀ p ∈ prefixFallback (mkCtx ta tal cutoff ty) cands,
        p.2 = ((max 90 cutoff : ℤ) : ℚ)) ∧
    (∀ p ∈ segmentFallback (mkCtx ta tal cutoff ty) cands,
        p.2 = segmentScore (mkCtx ta tal cutoff ty) p.1) ∧
    (∀ c : Candidate,
        segmentScore (mkCtx ta tal cutoff ty) c =
          if (match ty with
              | some y => !y.isEmpty && strContains c.album y
              | none => false) = true
          then ((max 92 cutoff : ℤ) : ℚ) else ((max 90 cutoff : ℤ) : ℚ)) ∧
    (∀ p ∈ containsFallback (mkCtx ta tal cutoff ty) cands,
        p.2 = ((max 90 cutoff : ℤ) : ℚ)) := by
  refine ⟨?_, ?_, ?_, ?_, ?_⟩
  · intro r hr
    simp only [best_match] at hr
    split at hr
    · exact absurd hr (by simp)
    · split at hr
      · exact fallbackChain_score hr
      · simp only [selectHits] at hr
        split at hr
        · exact absurd hr (by simp)
        · split at hr
          · rename_i hcut
            rw [Option.some_inj] at hr
            subst hr
            exact hcut
          · exact absurd hr (by simp)
  · intro p hp
    exact prefixFallback_score hp
  · intro p hp
    exact segmentFallback_score hp
  · intro c
    rcases ty with _ | y
    · simp [segmentScore, mkCtx]
    · by_cases hy : y.isEmpty <;> by_cases hs : strContains c.album y <;>
        simp [segmentScore, mkCtx, hy, hs]
  · intro p hp
    exact containsFallback_score hp

/-- Witness for C2: the invariant applied to the King Crimson example,
where `best_match` returns score 100 against cutoff 80. -/
theorem best_match_score_invariant_witness :
    ((80 : ℤ) : ℚ) ≤ (100 : ℚ) :=
  (best_match_score_invariant "King Crimson".data
      "In the Court of the Crimson King".data [kcCand] 80
      (some "1969".data)).1 (kcCand, 100) (by decide)

/-- C9: the fallback stages are consulted only when no candidate passes
both gates: whenever the hit list is non-empty, `best_match` is exactly the
gated selection (sort by year bucket then score, return the top if it
reaches the cutoff); moreover every hit's score already reaches the cutoff,
so the "top candidate below cutoff" situation of the claim cannot occur. -/
theorem best_match_no_fallback_when_hits (ta tal : List Char)
    (cands : List Candidate) (cutoff : ℤ) (ty : Option (List Char))
    (hne : bmHits (mkCtx ta tal cutoff ty) cands ≠ []) :
    best_match ta tal cands cutoff ty =
      selectHits (mkCtx ta tal cutoff ty) cands ∧
    ∀ h ∈ bmHits (mkCtx ta tal cutoff ty) cands,
      ((cutoff : ℤ) : ℚ) ≤ h.2.1 := by
  constructor
  · have hcne : cands ≠ [] := by
      intro hc
      apply hne
      rw [hc]
      rfl
    rw [best_match, if_neg hcne, if_neg hne]
  · intro h hmem
    simp only [bmHits, List.mem_filterMap] at hmem
    obtain ⟨c, -, hc⟩ := hmem
    obtain ⟨-, hstrong, rfl⟩ := hitOf_inv hc
    exact hit_score_ge_cutoff hstrong

theorem mem_runToSpace {p : Char → Bool} {c : Char} :
    ∀ (l : List Char) (b : Bool), c ∈ runToSpace p b l →
      c = ' ' ∨ (c ∈ l ∧ p c = false) := by
  intro l
  induction l with
  | nil => intro b h; simp [runToSpace] at h
  | cons d cs ih =>
      intro b h
      simp only [runToSpace] at h
      by_cases hd : p d
      · rw [if_pos hd] at h
        cases b with
        | true =>
            rcases ih true h with h1 | ⟨h1, h2⟩
            · exact Or.inl h1
            · exact Or.inr ⟨List.mem_cons_of_mem d h1, h2⟩
        | false =>
            rcases List.mem_cons.mp h with h1 | h1
            · exact Or.inl h1
            · rcases ih true h1 with h2 | ⟨h2, h3⟩
              · exact Or.inl h2
              · exact Or.inr ⟨List.mem_cons_of_mem d h2, h3⟩
      · rw [if_neg hd] at h
        rcases List.mem_cons.mp h with h1 | h1
        · subst h1
          exact Or.inr ⟨List.mem_cons_self c cs, eq_false_of_ne_true hd⟩
        · rcases ih false h1 with h2 | ⟨h2, h3⟩
          · exact Or.inl h2
          · exact Or.inr ⟨List.mem_cons_of_mem d h2, h3⟩

theorem noTwoWs_tail {a : Char} {l : List Char}
    (h : noTwoWs (a :: l) = true) : noTwoWs l = true := by
  cases l with
  | nil => rfl
  | cons b r =>
      simp only [noTwoWs, Bool.and_eq_true] at h
      exact h.2

theorem noTwoWs_cons_of {a : Char} {l : List Char} (hl : noTwoWs l = true)
    (hh : firstNotWs l = true ∨ pyIsSpace a = false) :
    noTwoWs (a :: l) = true := by
  cases l with
  | nil => rfl
  | cons b r =>
      simp only [noTwoWs, Bool.and_eq_true]
      refine ⟨?_, hl⟩
      rcases hh with hh | hh
      · rw [firstNotWs, Bool.not_eq_eq_eq_not, Bool.not_true] at hh
        simp [hh]
      · simp [hh]

theorem runToSpace_ws_shape :
    ∀ (l : List Char) (b : Bool),
      noTwoWs (runToSpace pyIsSpace b l) = true ∧
        (b = true → firstNotWs (runToSpace pyIsSpace b l) = true) := by
  intro l
  induction l with
  | nil => intro b; exact ⟨rfl, fun _ => rfl⟩
  | cons d cs ih =>
      intro b
      simp only [runToSpace]
      by_cases hd : pyIsSpace d
      · rw [if_pos hd]
        cases b with
        | true => exact ⟨(ih true).1, fun _ => (ih true).2 rfl⟩
        | false =>
            refine ⟨?_, fun hb => by cases hb⟩
            exact noTwoWs_cons_of (ih true).1 (Or.inl ((ih true).2 rfl))
      · rw [if_neg hd]
        have hd' : pyIsSpace d = false := eq_false_of_ne_true hd
        refine ⟨?_, fun _ => ?_⟩
        · exact noTwoWs_cons_of (ih false).1 (Or.inr hd')
        · rw [firstNotWs, hd']
          rfl

theorem noTwoWs_prefix :
    ∀ {l l' : List Char}, l' <+: l → noTwoWs l = true → noTwoWs l' = true := by
  intro l
  induction l with
  | nil =>
      intro l' hp h
      rw [List.prefix_nil.mp hp]
      rfl
  | cons a t ih =>
      intro l' hp h
      rcases List.prefix_cons_iff.mp hp with h1 | ⟨u, rfl, hu⟩
      · rw [h1]; rfl
      · refine noTwoWs_cons_of (ih hu (noTwoWs_tail h)) ?_
        by_cases ha : pyIsSpace a
        · left
          cases u with
          | nil => rfl
          | cons b' r' =>
              cases t with
              | nil =>
                  exact absurd (List.prefix_nil.mp hu) (by simp)
              | cons b r =>
                  obtain ⟨v, hv⟩ := hu
                  rw [List.cons_append] at hv
                  have hb : b' = b := by injection hv
                  subst hb
                  simp only [noTwoWs, Bool.and_eq_true] at h
                  have h1 := h.1
                  rw [ha] at h1
                  simp only [Bool.true_and, Bool.not_eq_eq_eq_not,
                    Bool.not_true] at h1
                  rw [firstNotWs, h1]
                  rfl
        · exact Or.inr (eq_false_of_ne_true ha)

theorem noTwoWs_suffix :
    ∀ {l l' : List Char}, l' <:+ l → noTwoWs l = true → noTwoWs l' = true := by
  intro l
  induction l with
  | nil =>
      intro l' hs h
      rw [List.suffix_nil.mp hs]
      rfl
  | cons a t ih =>
      intro l' hs h
      rcases List.suffix_cons_iff.mp hs with h1 | h1
      · rw [h1]; exact h
      · exact ih h1 (noTwoWs_tail h)

theorem noTwoWs_mid {l l' : List Char} (hi : l' <:+: l)
    (h : noTwoWs l = true) : noTwoWs l' = true := by
  obtain ⟨t, u, rfl⟩ := hi
  have h1 : l' <+: l' ++ u := ⟨u, rfl⟩
  have h2 : l' ++ u <:+ t ++ (l' ++ u) := ⟨t, rfl⟩
  rw [List.append_assoc] at h
  exact noTwoWs_prefix h1 (noTwoWs_suffix h2 h)

theorem dropWhile_firstNot (l : List Char) :
    firstNotWs (l.dropWhile pyIsSpace) = true := by
  induction l with
  | nil => rfl
  | cons a t ih =>
      rw [List.dropWhile]
      cases ha : pyIsSpace a with
      | true => exact ih
      | false => rw [firstNotWs, ha]; rfl

theorem prefix_firstNotWs {l l' : List Char} (hp : l' <+: l)
    (h : firstNotWs l = true) : firstNotWs l' = true := by
  cases l' with
  | nil => rfl
  | cons a t =>
      obtain ⟨u, hu⟩ := hp
      cases l with
      | nil => simp at hu
      | cons b r =>
          rw [List.cons_append] at hu
          have hb : a = b := by injection hu
          subst hb
          exact h

theorem firstNotWs_append_left {a b : List Char}
    (h1 : firstNotWs (a ++ b) = true) (h2 : a ≠ []) :
    firstNotWs a = true := by
  cases a with
  | nil => exact absurd rfl h2
  | cons c t => exact h1

theorem lastNotWs_suffix {l l' : List Char} (hs : l' <:+ l)
    (h : lastNotWs l = true) : lastNotWs l' = true := by
  by_cases hn : l' = []
  · rw [hn]; rfl
  · obtain ⟨t, rfl⟩ := hs
    rw [lastNotWs, List.reverse_append] at h
    rw [lastNotWs]
    refine firstNotWs_append_left h ?_
    simp [hn]

theorem pyStrip_prefix_dropWhile (l : List Char) :
    pyStrip l <+: l.dropWhile pyIsSpace := by
  rw [pyStrip]
  have h3 : (l.dropWhile pyIsSpace).reverse.dropWhile pyIsSpace <:+
      (l.dropWhile pyIsSpace).reverse := List.dropWhile_suffix pyIsSpace
  have h4 := List.reverse_prefix.mpr h3
  rwa [List.reverse_reverse] at h4

theorem pyStrip_mid (l : List Char) : pyStrip l <:+: l := by
  have h1 : pyStrip l <+: l.dropWhile pyIsSpace := pyStrip_prefix_dropWhile l
  have h2 : l.dropWhile pyIsSpace <:+ l := List.dropWhile_suffix pyIsSpace
  have h3 : pyStrip l <:+: l.dropWhile pyIsSpace := List.IsPrefix.isInfix h1
  have h4 : l.dropWhile pyIsSpace <:+: l := List.IsSuffix.isInfix h2
  exact List.IsInfix.trans h3 h4

theorem pyStrip_firstNotWs (l : List Char) :
    firstNotWs (pyStrip l) = true :=
  prefix_firstNotWs (pyStrip_prefix_dropWhile l) (dropWhile_firstNot l)

theorem pyStrip_lastNotWs (l : List Char) :
    lastNotWs (pyStrip l) = true := by
  rw [pyStrip, lastNotWs, List.reverse_reverse]
  exact dropWhile_firstNot _

theorem stripArticle_suffix (s : List Char) : stripArticle s <:+ s := by
  rw [stripArticle]
  cases articleWords.find? (fun w => articleApplies w s) with
  | none => exact List.suffix_rfl
  | some w =>
      exact (List.dropWhile_suffix pyIsSpace).trans (List.drop_suffix _ _)

theorem stripElision_suffix (s : List Char) : stripElision s <:+ s := by
  cases s with
  | nil => exact List.suffix_rfl
  | cons c rest =>
      rw [stripElision]
      by_cases hc : c = 'l'
      · rw [if_pos hc]
        split
        · rename_i r3 heq
          have hsuf : '\'' :: r3 <:+ rest := by
            rw [← heq]
            exact List.dropWhile_suffix pyIsSpace
          exact ((List.suffix_cons _ _).trans hsuf).trans (List.suffix_cons _ _)
        · exact List.suffix_rfl
      · rw [if_neg hc]

theorem stripElision_eq_self {s : List Char} (h : '\'' ∉ s) :
    stripElision s = s := by
  cases s with
  | nil => rfl
  | cons c rest =>
      rw [stripElision]
      by_cases hc : c = 'l'
      · rw [if_pos hc]
        split
        · rename_i r3 heq
          exfalso
          apply h
          refine List.mem_cons_of_mem c ((List.dropWhile_sublist pyIsSpace).subset ?_)
          rw [heq]
          exact List.mem_cons_self _ _
        · rfl
      · rw [if_neg hc]

theorem stripArticle_firstNotWs {s : List Char} (h : firstNotWs s = true) :
    firstNotWs (stripArticle s) = true := by
  rw [stripArticle]
  cases articleWords.find? (fun w => articleApplies w s) with
  | none => exact h
  | some w => exact dropWhile_firstNot _

theorem runToSpace_eq_self_of_no {p : Char → Bool} :
    ∀ l : List Char, (∀ c ∈ l, p c = false) → runToSpace p false l = l := by
  intro l
  induction l with
  | nil => intro _; rfl
  | cons c cs ih =>
      intro h
      rw [runToSpace]
      have hc := h c (List.mem_cons_self _ _)
      rw [hc]
      simp only [Bool.false_eq_true, if_false]
      rw [ih fun d hd => h d (List.mem_cons_of_mem c hd)]

theorem noTwoWs_head_tail {c : Char} {cs : List Char}
    (h : noTwoWs (c :: cs) = true) (hc : pyIsSpace c = true) :
    firstNotWs cs = true := by
  cases cs with
  | nil => rfl
  | cons d ds =>
      simp only [noTwoWs, Bool.and_eq_true] at h
      have h1 := h.1
      rw [hc] at h1
      simp only [Bool.true_and, Bool.not_eq_eq_eq_not, Bool.not_true] at h1
      rw [firstNotWs, h1]
      rfl

theorem collapseWs_eq_self_aux :
    ∀ (l : List Char) (b : Bool),
      (∀ c ∈ l, pyIsSpace c = true → c = ' ') → noTwoWs l = true →
      (b = true → firstNotWs l = true) → runToSpace pyIsSpace b l = l := by
  intro l
  induction l with
  | nil => intro b _ _ _; rfl
  | cons c cs ih =>
      intro b hsp hnt hfn
      by_cases hc : pyIsSpace c
      · have hb : b = false := by
          cases b with
          | false => rfl
          | true =>
              have := hfn rfl
              rw [firstNotWs, Bool.not_eq_eq_eq_not, Bool.not_true] at this
              rw [hc] at this
              cases this
        subst hb
        rw [runToSpace, if_pos hc, if_neg Bool.false_ne_true]
        rw [hsp c (List.mem_cons_self _ _) hc]
        rw [ih true (fun d hd h => hsp d (List.mem_cons_of_mem c hd) h)
          (noTwoWs_tail hnt) (fun _ => noTwoWs_head_tail hnt hc)]
      · have hc' : pyIsSpace c = false := eq_false_of_ne_true hc
        rw [runToSpace, hc']
        simp only [Bool.false_eq_true, if_false]
        rw [ih false (fun d hd h => hsp d (List.mem_cons_of_mem c hd) h)
          (noTwoWs_tail hnt) (fun hb => by cases hb)]

theorem toNat_ofNat_of_valid {n : ℕ} (h : n.isValidChar) :
    (Char.ofNat n).toNat = n := by
  rw [Char.ofNat, dif_pos h]
  rfl

theorem char_le_toNat {a b : Char} (h : a ≤ b) : a.toNat ≤ b.toNat := by
  rw [Char.le_def, UInt32.le_def, BitVec.le_def] at h
  exact h

theorem pyLowerChar_good {c : Char} (h : c.toNat < 128) :
    (pyLowerChar c).toNat < 128 ∧
      ¬('A' ≤ pyLowerChar c ∧ pyLowerChar c ≤ 'Z') := by
  rw [pyLowerChar]
  by_cases hu : 'A' ≤ c ∧ c ≤ 'Z'
  · rw [if_pos hu]
    have h1 := char_le_toNat hu.1
    have h2 := char_le_toNat hu.2
    rw [show ('A').toNat = 65 from by decide] at h1
    rw [show ('Z').toNat = 90 from by decide] at h2
    have hv : (c.toNat + 32).isValidChar := Or.inl (by omega)
    have ht : (Char.ofNat (c.toNat + 32)).toNat = c.toNat + 32 :=
      toNat_ofNat_of_valid hv
    constructor
    · omega
    · rintro ⟨-, hb⟩
      have hb' := char_le_toNat hb
      rw [ht, show ('Z').toNat = 90 from by decide] at hb'
      omega
  · rw [if_neg hu]
    exact ⟨h, hu⟩

theorem pyLowerChar_eq_self {c : Char} (h : ¬('A' ≤ c ∧ c ≤ 'Z')) :
    pyLowerChar c = c := by
  rw [pyLowerChar, if_neg h]

theorem map_eq_self {f : Char → Char} :
    ∀ {l : List Char}, (∀ c ∈ l, f c = c) → l.map f = l := by
  intro l
  induction l with
  | nil => intro _; rfl
  | cons c cs ih =>
      intro h
      rw [List.map_cons, h c (List.mem_cons_self _ _),
        ih fun d hd => h d (List.mem_cons_of_mem c hd)]

theorem unidecodeChar_ascii {c : Char} (h : c.toNat < 128) :
    unidecodeChar c = [c] := by
  rw [unidecodeChar, if_pos h]

theorem unidecodeStr_ascii :
    ∀ {s : List Char}, (∀ c ∈ s, c.toNat < 128) → unidecodeStr s = s := by
  intro s
  induction s with
  | nil => intro _; rfl
  | cons c t ih =>
      intro h
      rw [unidecodeStr, List.flatMap_cons,
        unidecodeChar_ascii (h c (List.mem_cons_self _ _))]
      rw [unidecodeStr] at ih
      rw [ih fun d hd => h d (List.mem_cons_of_mem c hd)]
      rfl

theorem mem_replaceAmp {c : Char} {s : List Char} (h : c ∈ replaceAmp s) :
    c ∈ " and ".data ∨ (c ∈ s ∧ c ≠ '&') := by
  rw [replaceAmp] at h
  obtain ⟨d, hd, hc⟩ := List.mem_flatMap.mp h
  by_cases he : d = '&'
  · rw [if_pos he] at hc
    exact Or.inl hc
  · rw [if_neg he] at hc
    have hcd := List.mem_singleton.mp hc
    subst hcd
    exact Or.inr ⟨hd, he⟩

theorem mem_replacePlus {c : Char} {s : List Char} (h : c ∈ replacePlus s) :
    c = ' ' ∨ (c ∈ s ∧ c ≠ '+') := by
  rw [replacePlus] at h
  obtain ⟨d, hd, hc⟩ := List.mem_flatMap.mp h
  by_cases he : d = '+'
  · rw [if_pos he] at hc
    exact Or.inl (List.mem_singleton.mp hc)
  · rw [if_neg he] at hc
    have hcd := List.mem_singleton.mp hc
    subst hcd
    exact Or.inr ⟨hd, he⟩

theorem mem_replaceSlash {c : Char} {s : List Char} (h : c ∈ replaceSlash s) :
    c ∈ " and ".data ∨ (c ∈ s ∧ c ≠ '/') := by
  rw [replaceSlash] at h
  obtain ⟨d, hd, hc⟩ := List.mem_flatMap.mp h
  by_cases he : d = '/'
  · rw [if_pos he] at hc
    exact Or.inl hc
  · rw [if_neg he] at hc
    have hcd := List.mem_singleton.mp hc
    subst hcd
    exact Or.inr ⟨hd, he⟩

theorem mem_removeDots {c : Char} {s : List Char} (h : c ∈ removeDots s) :
    c ∈ s ∧ c ≠ '.' := by
  rw [removeDots] at h
  have h1 := List.mem_filter.mp h
  exact ⟨h1.1, by simpa using h1.2⟩

theorem goodChar_of {c : Char} (h1 : c.toNat < 128) (h2 : ¬('A' ≤ c ∧ c ≤ 'Z'))
    (h3 : c ≠ '&') (h4 : c ≠ '+') (h5 : c ≠ '/') (h6 : c ≠ '.')
    (h7 : isPunctClass c = false) (h8 : pyIsSpace c = false ∨ c = ' ') :
    goodChar c = true := by
  rw [goodChar]
  simp only [Bool.and_eq_true]
  refine ⟨⟨⟨⟨decide_eq_true h1, ?_⟩, ?_⟩, ?_⟩, ?_⟩
  · rw [Bool.not_eq_eq_eq_not, Bool.not_true, Bool.and_eq_false_iff]
    by_cases hA : 'A' ≤ c
    · exact Or.inr (decide_eq_false fun hz => h2 ⟨hA, hz⟩)
    · exact Or.inl (decide_eq_false hA)
  · rw [Bool.not_eq_eq_eq_not, Bool.not_true]
    simp only [Bool.or_eq_false_iff]
    exact ⟨⟨⟨decide_eq_false h3, decide_eq_false h4⟩, decide_eq_false h5⟩,
      decide_eq_false h6⟩
  · rw [Bool.not_eq_eq_eq_not, Bool.not_true]
    exact h7
  · rw [Bool.or_eq_true]
    rcases h8 with h8 | h8
    · exact Or.inl (by rw [h8]; rfl)
    · exact Or.inr (decide_eq_true h8)

theorem goodChar_spec {c : Char} (h : goodChar c = true) :
    c.toNat < 128 ∧ ¬('A' ≤ c ∧ c ≤ 'Z') ∧ c ≠ '&' ∧ c ≠ '+' ∧ c ≠ '/' ∧
      c ≠ '.' ∧ isPunctClass c = false ∧ (pyIsSpace c = true → c = ' ') := by
  rw [goodChar] at h
  simp only [Bool.and_eq_true] at h
  obtain ⟨⟨⟨⟨hA, hB⟩, hC⟩, hD⟩, hE⟩ := h
  rw [Bool.not_eq_eq_eq_not, Bool.not_true, Bool.and_eq_false_iff] at hB
  rw [Bool.not_eq_eq_eq_not, Bool.not_true] at hC
  simp only [Bool.or_eq_false_iff] at hC
  rw [Bool.not_eq_eq_eq_not, Bool.not_true] at hD
  rw [Bool.or_eq_true] at hE
  refine ⟨of_decide_eq_true hA, ?_, of_decide_eq_false hC.1.1.1,
    of_decide_eq_false hC.1.1.2, of_decide_eq_false hC.1.2,
    of_decide_eq_false hC.2, hD, ?_⟩
  · rintro ⟨g1, g2⟩
    rcases hB with hB | hB
    · exact of_decide_eq_false hB g1
    · exact of_decide_eq_false hB g2
  · intro hws
    rcases hE with hE | hE
    · rw [Bool.not_eq_eq_eq_not, Bool.not_true, hws] at hE
      cases hE
    · exact of_decide_eq_true hE

theorem mem_pyLower_strip_good {s : List Char} (hs : allAscii s = true)
    {c : Char} (hc : c ∈ pyLower (pyStrip s)) :
    c.toNat < 128 ∧ ¬('A' ≤ c ∧ c ≤ 'Z') := by
  rw [pyLower] at hc
  obtain ⟨d, hd, rfl⟩ := List.mem_map.mp hc
  rw [allAscii] at hs
  have h1 := List.all_eq_true.mp hs d ((pyStrip_mid s).sublist.subset hd)
  exact pyLowerChar_good (of_decide_eq_true h1)

theorem unidecode_pyLower_strip {s : List Char} (hs : allAscii s = true) :
    unidecodeStr (pyLower (pyStrip s)) = pyLower (pyStrip s) :=
  unidecodeStr_ascii fun _ hc => (mem_pyLower_strip_good hs hc).1

theorem mem_s5_good {s : List Char} (hs : allAscii s = true) {c : Char}
    (hc : c ∈ stripElision (stripArticle (removeDots (replaceSlash (replacePlus
      (replaceAmp (unidecodeStr (pyLower (pyStrip s))))))))) :
    c.toNat < 128 ∧ ¬('A' ≤ c ∧ c ≤ 'Z') ∧ c ≠ '&' ∧ c ≠ '+' ∧ c ≠ '/' ∧
      c ≠ '.' := by
  have h4 : c ∈ removeDots (replaceSlash (replacePlus (replaceAmp
      (unidecodeStr (pyLower (pyStrip s)))))) :=
    (stripArticle_suffix _).sublist.subset
      ((stripElision_suffix _).sublist.subset hc)
  obtain ⟨h3, hdot⟩ := mem_removeDots h4
  rcases mem_replaceSlash h3 with hA | ⟨h2, hslash⟩
  · have hA' : c ∈ [' ', 'a', 'n', 'd', ' '] := hA
    fin_cases hA' <;>
      exact ⟨by decide, by decide, by decide, by decide, by decide, by decide⟩
  rcases mem_replacePlus h2 with rfl | ⟨h1, hplus⟩
  · exact ⟨by decide, by decide, by decide, by decide, by decide, by decide⟩
  rcases mem_replaceAmp h1 with hA | ⟨h0, hamp⟩
  · have hA' : c ∈ [' ', 'a', 'n', 'd', ' '] := hA
    fin_cases hA' <;>
      exact ⟨by decide, by decide, by decide, by decide, by decide, by decide⟩
  rw [unidecode_pyLower_strip hs] at h0
  obtain ⟨ha, hb⟩ := mem_pyLower_strip_good hs h0
  exact ⟨ha, hb, hamp, hplus, hslash, hdot⟩

theorem normalize_text_shape {s : List Char} (hs : allAscii s = true) :
    normalizedShape (normalize_text s) = true := by
  simp only [normalize_text]
  rw [normalizedShape]
  simp only [Bool.and_eq_true]
  refine ⟨⟨⟨?_, ?_⟩, ?_⟩, ?_⟩
  · rw [List.all_eq_true]
    intro c hcmem
    have hc1 := (pyStrip_mid _).sublist.subset hcmem
    rw [collapseWs] at hc1
    rcases mem_runToSpace _ _ hc1 with rfl | ⟨hc2, hws⟩
    · decide
    · rw [punctToSpace] at hc2
      rcases mem_runToSpace _ _ hc2 with rfl | ⟨hc3, hpunct⟩
      · decide
      · obtain ⟨ha, hb, h3, h4, h5, h6⟩ := mem_s5_good hs hc3
        exact goodChar_of ha hb h3 h4 h5 h6 hpunct (Or.inl hws)
  · exact noTwoWs_mid (pyStrip_mid _) (runToSpace_ws_shape _ false).1
  · exact pyStrip_firstNotWs _
  · exact pyStrip_lastNotWs _

theorem flatMap_singleton_eq_self {f : Char → List Char} :
    ∀ {l : List Char}, (∀ c ∈ l, f c = [c]) → l.flatMap f = l := by
  intro l
  induction l with
  | nil => intro _; rfl
  | cons c cs ih =>
      intro h
      rw [List.flatMap_cons, h c (List.mem_cons_self _ _),
        ih fun d hd => h d (List.mem_cons_of_mem c hd)]
      rfl

theorem normalize_text_of_shape {y : List Char} (h : normalizedShape y = true) :
    normalize_text y = stripArticle y := by
  rw [normalizedShape] at h
  simp only [Bool.and_eq_true] at h
  obtain ⟨⟨⟨hall, hnt⟩, hfn⟩, hln⟩ := h
  rw [List.all_eq_true] at hall
  have hsA : ∀ c ∈ stripArticle y, c ∈ y := fun c hc =>
    (stripArticle_suffix y).sublist.subset hc
  have hstrip : pyStrip y = y := pyStrip_eq_self hfn hln
  have hlower : pyLower y = y :=
    map_eq_self fun c hc => pyLowerChar_eq_self (goodChar_spec (hall c hc)).2.1
  have huni : unidecodeStr y = y :=
    unidecodeStr_ascii fun c hc => (goodChar_spec (hall c hc)).1
  have hampr : replaceAmp y = y := by
    rw [replaceAmp]
    exact flatMap_singleton_eq_self fun c hc => by
      rw [if_neg (goodChar_spec (hall c hc)).2.2.1]
  have hplusr : replacePlus y = y := by
    rw [replacePlus]
    exact flatMap_singleton_eq_self fun c hc => by
      rw [if_neg (goodChar_spec (hall c hc)).2.2.2.1]
  have hslashr : replaceSlash y = y := by
    rw [replaceSlash]
    exact flatMap_singleton_eq_self fun c hc => by
      rw [if_neg (goodChar_spec (hall c hc)).2.2.2.2.1]
  have hdots : removeDots y = y := by
    rw [removeDots]
    rw [List.filter_eq_self]
    exact fun c hc => decide_eq_true (goodChar_spec (hall c hc)).2.2.2.2.2.1
  have hel : stripElision (stripArticle y) = stripArticle y :=
    stripElision_eq_self fun hmem => by
      have hp := (goodChar_spec (hall _ (hsA _ hmem))).2.2.2.2.2.2.1
      revert hp
      decide
  have hpunct2 : punctToSpace (stripArticle y) = stripArticle y := by
    rw [punctToSpace]
    exact runToSpace_eq_self_of_no _ fun c hc =>
      (goodChar_spec (hall c (hsA c hc))).2.2.2.2.2.2.1
  have hcoll : collapseWs (stripArticle y) = stripArticle y := by
    rw [collapseWs]
    exact collapseWs_eq_self_aux _ false
      (fun c hc hw => (goodChar_spec (hall c (hsA c hc))).2.2.2.2.2.2.2 hw)
      (noTwoWs_suffix (stripArticle_suffix y) hnt)
      (fun hb => by cases hb)
  have hstrip2 : pyStrip (stripArticle y) = stripArticle y :=
    pyStrip_eq_self (stripArticle_firstNotWs hfn)
      (lastNotWs_suffix (stripArticle_suffix y) hln)
  simp only [normalize_text]
  rw [hstrip, hlower, huni, hampr, hplusr, hslashr, hdots, hel, hpunct2,
    hcoll, hstrip2]

/-- Counterexample for C3: for the target artist "Darryl Way's Wolf"
(album "Canis Lupus", cutoff 85) and the candidate artist "Darryl Way"
(same album), the code's artist gate passes — the alias exception discards
the possessive token "s" before checking the extra target tokens, leaving
only "wolf", which is allow-listed — while the gate as the claim words it
fails, because the extra target tokens are {"s", "wolf"} and "s" is not in
the allow-list (and no other disjunct applies: the token-sort score is
2000/27 < 90). -/
theorem artist_gate_claim_counterexample :
    artistGate dwRevCtx dwRevCand = true ∧
    claimArtistGate dwRevCtx dwRevCand = false :=
  ⟨by decide, by decide⟩

theorem best_match_darryl_way_eval :
    best_match "Darryl Way".data "Canis Lupus".data [dwCand] 85 none =
      some (dwCand, 100) := by
  decide

/-- C3 (amended): the artist gate holds iff the plain-score disjunct or one
of the three exceptions holds — where the alias exception computes the
extra target tokens after discarding the possessive token "s" — AND the
single-token-superset guard does not revoke it (it revokes unless the
target is self-titled and the candidate album equals the candidate artist
at no-space ratio ≥ 99); the Darryl Way example returns its candidate with
score 100. -/
theorem artist_gate_characterization :
    (∀ (ctx : MatchCtx) (c : Candidate),
        artistGate ctx c = true ↔
          ((((85 : ℚ) ≤ artistSetScore ctx c ∧
              (90 : ℚ) ≤ artistSortScore ctx c) ∨
            (cTokens c ≠ [] ∧ (∀ t ∈ cTokens c, t ∈ tTokens ctx) ∧
              2 ≤ (cTokens c).length ∧ extrasOf ctx c ≠ [] ∧
              (∀ t ∈ extrasOf ctx c, t ∈ allowed_extras) ∧
              ((max ctx.cutoff 95 : ℤ) : ℚ) ≤ albumScore ctx c) ∨
            ((∀ t ∈ tTokens ctx, t ∈ cTokens c) ∧
              ((max ctx.cutoff 95 : ℤ) : ℚ) ≤ albumScore ctx c ∧
              (85 : ℚ) ≤ artistSetScore ctx c ∧
              (hasCollabMarker c.artist = true ∨
                (cTokens c).length ≤ (tTokens ctx).length + 2) ∧
              2 ≤ (tTokens ctx).length) ∨
            (ctx.multiTarget = true ∧ (∀ t ∈ cTokens c, t ∈ tTokens ctx) ∧
              2 ≤ (cTokens c).length ∧
              ((max ctx.cutoff 95 : ℤ) : ℚ) ≤ albumScore ctx c ∧
              (85 : ℚ) ≤ artistSetScore ctx c)) ∧
          (singleTokenSuperset ctx c = false ∨
            (ctx.tSelfTitled = true ∧ candAlbumNorm c = candArtistNorm c ∧
              (99 : ℚ) ≤ albumNsScore ctx c)))) ∧
    best_match "Darryl Way".data "Canis Lupus".data [dwCand] 85 none =
      some (dwCand, 100) := by
  refine ⟨?_, best_match_darryl_way_eval⟩
  intro ctx c
  simp only [artistGate, artistGatePre, artistAliasOk, collabOk, duoSubsetOk,
    subsetStr, Bool.and_eq_true, Bool.or_eq_true, Bool.not_eq_true',
    decide_eq_true_eq, List.all_eq_true, List.isEmpty_eq_false]
  simp only [and_assoc, or_assoc]

/-- Witness for C9: the equation applied to the King Crimson example,
whose hit list is non-empty. -/
theorem best_match_no_fallback_when_hits_witness :
    best_match "King Crimson".data "In the Court of the Crimson King".data
        [kcCand] 80 (some "1969".data) =
      selectHits
        (mkCtx "King Crimson".data "In the Court of the Crimson King".data 80
          (some "1969".data)) [kcCand] :=
  (best_match_no_fallback_when_hits "King Crimson".data
      "In the Court of the Crimson King".data [kcCand] 80 (some "1969".data)
      (by decide)).1

/-- Counterexample for C4: `normalize_text` is not idempotent. The
article-stripping step removes only one leading article per pass, so on
"the the cat" the first pass yields "the cat" and the second pass strips
the surviving "the" again, changing the result. -/
theorem normalize_text_not_idempotent :
    normalize_text (normalize_text "the the cat".data) ≠
      normalize_text "the the cat".data := by
  decide

/-- C4 (corrected): on ASCII input a second application of `normalize_text`
reduces exactly to one more round of leading-article stripping:
`normalize_text (normalize_text s) = stripArticle (normalize_text s)`.
Consequently idempotence holds precisely on inputs whose normal form does
not itself start with an article: whenever
`stripArticle (normalize_text s) = normalize_text s`, the second pass is
the identity. -/
theorem normalize_text_second_pass {s : List Char} (h : allAscii s = true) :
    normalize_text (normalize_text s) = stripArticle (normalize_text s) ∧
      (stripArticle (normalize_text s) = normalize_text s →
        normalize_text (normalize_text s) = normalize_text s) := by
  have h1 := normalize_text_of_shape (normalize_text_shape h)
  exact ⟨h1, fun h2 => h1.trans h2⟩

/-- Witness for C4: "The Color Humano" is ASCII, its normal form
"color humano" carries no leading article, and the second pass is indeed
the identity on it. -/
theorem normalize_text_second_pass_witness :
    allAscii "The Color Humano".data = true ∧
      normalize_text (normalize_text "The Color Humano".data) =
        normalize_text "The Color Humano".data :=
  ⟨by decide, (normalize_text_second_pass (by decide)).2 (by decide)⟩

end BuildPlaylist
